import Mathlib

/-!
# gziptext — verification of the container codec

Shallow embedding of the gzip <-> text transcoder (gziptext.py and the
gziptext/ package).  Byte strings are modelled as `List Nat` with values
below 256 (the Python `bytes` type guarantees this; theorems that need it
carry the bound as a hypothesis).  Python `int` values stored in header
dictionaries are modelled as `Int`.  Fallible operations return
`Except Err α` where `Err` enumerates the exception classes the code can
actually raise.
-/

set_option maxRecDepth 100000

namespace Gziptext

/-- The exception classes observable from the modelled code paths.
`ioError` is Python IOError (saferead / read_cstr hitting EOF),
`structError` is struct.error (unpack/pack size or range failure),
`valueError`, `keyError`, `typeError`, `assertError` are the builtin
exceptions, `unicodeError` covers UnicodeEncodeError/UnicodeDecodeError,
`binasciiError` is binascii.Error from base64 decoding, `nameError` is
NameError (an undefined local variable), `notImplemented` is
NotImplementedError.  `truncatedInput` is the spec's named
TruncatedInputError: no class of that name exists anywhere in the source,
so no code path ever produces it. -/
inductive Err where
  | ioError
  | badMagic
  | structError
  | valueError
  | assertError
  | keyError
  | unicodeError
  | binasciiError
  | nameError
  | notImplemented
  | typeError
  | truncatedInput
  deriving DecidableEq, Repr

instance {ε α : Type} [DecidableEq ε] [DecidableEq α] :
    DecidableEq (Except ε α) := fun x y =>
  match x, y with
  | .ok a, .ok b => decidable_of_iff (a = b) (by simp)
  | .error a, .error b => decidable_of_iff (a = b) (by simp)
  | .ok _, .error _ => isFalse (by simp)
  | .error _, .ok _ => isFalse (by simp)

/-- ASCII byte values of a Lean string literal (used for the fixed ASCII
keys and delimiters appearing in the Python source). -/
def s2b (s : String) : List Nat := s.data.map Char.toNat

/-- Modelled from the spec: one shift step of the standard CRC-32
(ISO 3309) bitwise algorithm with reflected polynomial 0xEDB88320.
The source calls zlib.crc32, an external C library whose code is not in
the repository; the spec pins it to the standard CRC-32. -/
def crc32Step (c : Nat) : Nat :=
  if c % 2 = 1 then 0xEDB88320 ^^^ (c / 2) else c / 2

/-- Modelled from the spec: absorb one byte into a CRC-32 state. -/
def crc32Byte (c b : Nat) : Nat := crc32Step^[8] (c ^^^ b)

/-- Modelled from the spec: standard CRC-32 (ISO 3309) of a byte string:
initial state 0xFFFFFFFF, final xor 0xFFFFFFFF. -/
def crc32 (buf : List Nat) : Nat :=
  (buf.foldl crc32Byte 0xFFFFFFFF) ^^^ 0xFFFFFFFF

/-- gziptext.py crc16 / gziptext/util.py crc16:
low 16 bits of the CRC-32 of the buffer. -/
def crc16 (buf : List Nat) : Nat := crc32 buf &&& 0xffff

/-! ## Fixed-width little-endian integer codecs (struct '<H' / '<I') -/

/-- gziptext.py to_i16: Struct('<H').unpack, which requires a buffer of
exactly 2 bytes (struct.error otherwise). -/
def to_i16 (buf : List Nat) : Except Err Nat :=
  match buf with
  | [b0, b1] => .ok (b0 + 256 * b1)
  | _ => .error .structError

/-- gziptext.py to_i32: Struct('<I').unpack, exactly 4 bytes. -/
def to_i32 (buf : List Nat) : Except Err Nat :=
  match buf with
  | [b0, b1, b2, b3] => .ok (b0 + 256 * b1 + 65536 * b2 + 16777216 * b3)
  | _ => .error .structError

/-- gziptext.py from_i16: Struct('<H').pack, which range-checks its
argument (struct.error outside [0, 0xffff]). -/
def from_i16 (num : Int) : Except Err (List Nat) :=
  if 0 ≤ num ∧ num ≤ 0xffff then
    .ok [num.toNat % 256, num.toNat / 256]
  else .error .structError

/-- gziptext.py from_i32: Struct('<I').pack, range [0, 0xffffffff]. -/
def from_i32 (num : Int) : Except Err (List Nat) :=
  if 0 ≤ num ∧ num ≤ 0xffffffff then
    .ok [num.toNat % 256, num.toNat / 256 % 256,
         num.toNat / 65536 % 256, num.toNat / 16777216 % 256]
  else .error .structError

/-- struct.pack of one 'B' field: range [0, 255]. -/
def packU8 (num : Int) : Except Err (List Nat) :=
  if 0 ≤ num ∧ num ≤ 0xff then .ok [num.toNat] else .error .structError

/-- gziptext.py is_i8 (the isinstance test is enforced by typing). -/
def is_i8 (num : Int) : Bool := 0 ≤ num && num ≤ 0xff

/-- gziptext.py is_i16. -/
def is_i16 (num : Int) : Bool := 0 ≤ num && num ≤ 0xffff

/-- gziptext.py is_i32. -/
def is_i32 (num : Int) : Bool := 0 ≤ num && num ≤ 0xffffffff

/-- gziptext.py encodable(text, ENCODING): a Python str encodes in
latin-1 exactly when every code point is below 256.  Strings are
modelled as lists of Unicode code points. -/
def encodable (text : List Nat) : Bool := text.all (fun c => c ≤ 255)

/-! ## List utilities: wrapping, chunking, line splitting, stripping -/

/-- Recursion worker for wrapline.  The fuel argument only makes the
recursion structural (so that the kernel can evaluate it); any fuel of
at least bstr.length behaves identically, and the zero-length guard
mirrors the fact that the source only ever calls it with length 72 (and
3 in a doctest). -/
def wraplineGo (len : Nat) : Nat → List Nat → List Nat
  | 0, _ => []
  | fuel + 1, bstr =>
    if len = 0 ∨ bstr = [] then []
    else (bstr.take len ++ [10]) ++ wraplineGo len fuel (bstr.drop len)

/-- gziptext.py wrapline / gziptext/util.py wrapline: emit the input in
slices of the given length, each followed by a newline byte. -/
def wrapline (bstr : List Nat) (len : Nat) : List Nat :=
  wraplineGo len bstr.length bstr

/-- Recursion worker for chunksOf (fuel as in wraplineGo). -/
def chunksOfGo (n : Nat) : Nat → List Nat → List (List Nat)
  | 0, _ => []
  | fuel + 1, l =>
    if n = 0 ∨ l = [] then []
    else l.take n :: chunksOfGo n fuel (l.drop n)

/-- The slices of length n that wrapline walks over (range(0, len, n)). -/
def chunksOf (n : Nat) (l : List Nat) : List (List Nat) :=
  chunksOfGo n l.length l

/-- Helper for linesOf: accumulate the current (reversed) partial line. -/
def linesGo (acc : List Nat) : List Nat → List (List Nat)
  | [] => if acc = [] then [] else [acc.reverse]
  | c :: rest =>
    if c = 10 then (acc.reverse ++ [10]) :: linesGo [] rest
    else linesGo (c :: acc) rest

/-- Iterating a binary file yields its lines, each including the
terminating newline; a final unterminated chunk is yielded as-is. -/
def linesOf (l : List Nat) : List (List Nat) := linesGo [] l

/-- The six ASCII whitespace bytes that bytes.strip/rstrip remove. -/
def isSpaceByte (c : Nat) : Bool :=
  c = 32 || c = 9 || c = 10 || c = 13 || c = 11 || c = 12

/-- bytes.rstrip(). -/
def rstrip (l : List Nat) : List Nat := (l.reverse.dropWhile isSpaceByte).reverse

/-- bytes.strip(). -/
def pyStrip (l : List Nat) : List Nat := (rstrip l).dropWhile isSpaceByte

/-- bytes.split(sep) for a single-byte separator: splits at every
occurrence, keeping empty pieces. -/
def pySplit (sep : Nat) : List Nat → List (List Nat)
  | [] => [[]]
  | c :: rest =>
    if c = sep then [] :: pySplit sep rest
    else
      match pySplit sep rest with
      | [] => [[c]]
      | h :: t => (c :: h) :: t

/-! ## Base64 (base64.b64encode / b64decode on exact encodings) -/

/-- The standard base64 alphabet. -/
def b64alpha : List Nat :=
  s2b "ABCDEFGHIJKLMNOPQRSTUVWXYZabcdefghijklmnopqrstuvwxyz0123456789+/"

/-- Character for a 6-bit group. -/
def b64char (i : Nat) : Nat := b64alpha.getD i 0

/-- base64.b64encode: 3-byte groups become 4 characters; a 1- or 2-byte
tail is padded with '=' (61). -/
def encodeB64 : List Nat → List Nat
  | [] => []
  | [b1] =>
    let n := b1 * 65536
    [b64char (n / 262144), b64char (n / 4096 % 64), 61, 61]
  | [b1, b2] =>
    let n := b1 * 65536 + b2 * 256
    [b64char (n / 262144), b64char (n / 4096 % 64), b64char (n / 64 % 64), 61]
  | b1 :: b2 :: b3 :: rest =>
    let n := b1 * 65536 + b2 * 256 + b3
    b64char (n / 262144) :: b64char (n / 4096 % 64) :: b64char (n / 64 % 64)
      :: b64char (n % 64) :: encodeB64 rest

/-- Index of a character in the base64 alphabet. -/
def b64inv (c : Nat) : Except Err Nat :=
  match b64alpha.findIdx? (fun x => x = c) with
  | some i => .ok i
  | none => .error .binasciiError

/-- base64.b64decode on well-formed input: strict groups of 4 with '='
padding only in the final group.  Python's decoder (stdlib, not
repository code) is more lenient on malformed input — it first discards
alien characters — but every input it receives in the verified paths is
an exact base64 encoding, on which the two agree. -/
def decodeB64 : List Nat → Except Err (List Nat)
  | [] => .ok []
  | c1 :: c2 :: c3 :: c4 :: rest =>
    if c3 = 61 && c4 = 61 && rest.isEmpty then do
      let i1 ← b64inv c1
      let i2 ← b64inv c2
      let n := i1 * 262144 + i2 * 4096
      .ok [n / 65536]
    else if c4 = 61 && rest.isEmpty then do
      let i1 ← b64inv c1
      let i2 ← b64inv c2
      let i3 ← b64inv c3
      let n := i1 * 262144 + i2 * 4096 + i3 * 64
      .ok [n / 65536, n / 256 % 256]
    else do
      let i1 ← b64inv c1
      let i2 ← b64inv c2
      let i3 ← b64inv c3
      let i4 ← b64inv c4
      let n := i1 * 262144 + i2 * 4096 + i3 * 64 + i4
      let tail ← decodeB64 rest
      .ok (n / 65536 :: n / 256 % 256 :: n % 256 :: tail)
  | _ => .error .binasciiError

/-! ## UTF-8 (str.encode() / bytes.decode() with no argument) -/

/-- UTF-8 bytes of one code point. -/
def utf8Char (cp : Nat) : List Nat :=
  if cp < 128 then [cp]
  else if cp < 2048 then [192 + cp / 64, 128 + cp % 64]
  else if cp < 65536 then [224 + cp / 4096, 128 + cp / 64 % 64, 128 + cp % 64]
  else [240 + cp / 262144, 128 + cp / 4096 % 64, 128 + cp / 64 % 64, 128 + cp % 64]

/-- str.encode(): UTF-8 bytes of a code-point list. -/
def utf8Encode (text : List Nat) : List Nat := (text.map utf8Char).flatten

/-- A UTF-8 continuation byte. -/
def utf8Cont (c : Nat) : Bool := 128 ≤ c && c < 192

/-- Decode one UTF-8 sequence: the leading byte and the remaining
stream give one code point and the unread remainder
(UnicodeDecodeError on malformed sequences, overlong forms, surrogates,
or values beyond U+10FFFF). -/
def utf8DecodeOne (c1 : Nat) (rest : List Nat) : Except Err (Nat × List Nat) :=
  if c1 < 128 then .ok (c1, rest)
  else if 194 ≤ c1 && c1 ≤ 223 then
    match rest with
    | c2 :: rest2 =>
      if utf8Cont c2 then .ok ((c1 - 192) * 64 + (c2 - 128), rest2)
      else .error .unicodeError
    | [] => .error .unicodeError
  else if 224 ≤ c1 && c1 ≤ 239 then
    match rest with
    | c2 :: c3 :: rest2 =>
      if utf8Cont c2 && utf8Cont c3 then
        let cp := (c1 - 224) * 4096 + (c2 - 128) * 64 + (c3 - 128)
        if 2048 ≤ cp && !(55296 ≤ cp && cp ≤ 57343) then .ok (cp, rest2)
        else .error .unicodeError
      else .error .unicodeError
    | _ => .error .unicodeError
  else if 240 ≤ c1 && c1 ≤ 244 then
    match rest with
    | c2 :: c3 :: c4 :: rest2 =>
      if utf8Cont c2 && utf8Cont c3 && utf8Cont c4 then
        let cp := (c1 - 240) * 262144 + (c2 - 128) * 4096
          + (c3 - 128) * 64 + (c4 - 128)
        if 65536 ≤ cp && cp ≤ 1114111 then .ok (cp, rest2)
        else .error .unicodeError
      else .error .unicodeError
    | _ => .error .unicodeError
  else .error .unicodeError

/-- Recursion worker for utf8Decode (structural fuel; each step consumes
at least the leading byte, so any fuel of at least the input length is
adequate; the zero-fuel error is unreachable then). -/
def utf8DecodeGo : Nat → List Nat → Except Err (List Nat)
  | _, [] => .ok []
  | 0, _ :: _ => .error .unicodeError
  | fuel + 1, c1 :: rest => do
    let r ← utf8DecodeOne c1 rest
    let t ← utf8DecodeGo fuel r.2
    .ok (r.1 :: t)

/-- bytes.decode(): strict UTF-8 decoding of the whole stream. -/
def utf8Decode (l : List Nat) : Except Err (List Nat) :=
  utf8DecodeGo l.length l

/-! ## Decimal integers (str(int) / int(bytes)) -/

/-- Digits of n, most significant first, produced with explicit fuel so
that the definition reduces in the kernel. -/
def natToDecGo (n : Nat) : Nat → List Nat
  | 0 => []
  | fuel + 1 => if n = 0 then [] else natToDecGo (n / 10) fuel ++ [48 + n % 10]

/-- str(n) for a nonnegative int: ASCII decimal digits. -/
def natToDec (n : Nat) : List Nat := if n = 0 then [48] else natToDecGo n n

/-- str(v) for a Python int. -/
def pyIntStr (v : Int) : List Nat :=
  if v < 0 then 45 :: natToDec (-v).toNat else natToDec v.toNat

/-- ASCII decimal digit. -/
def isDigitByte (c : Nat) : Bool := 48 ≤ c && c ≤ 57

/-- Value of a digit string, most significant first. -/
def parseDigits (l : List Nat) : Nat := l.foldl (fun a d => a * 10 + (d - 48)) 0

/-- int(bytes): strips ASCII whitespace, one optional sign, then decimal
digits; ValueError otherwise.  (Digit-grouping underscores, which Python
also accepts, are not modelled; no input in the verified paths contains
them.) -/
def parsePyInt (l : List Nat) : Except Err Int :=
  let t := pyStrip l
  let p : Bool × List Nat :=
    match t with
    | c :: r =>
      if c = 45 then (true, r)
      else if c = 43 then (false, r)
      else (false, c :: r)
    | [] => (false, [])
  if p.2 ≠ [] ∧ p.2.all isDigitByte then
    .ok (if p.1 then -(parseDigits p.2 : Int) else (parseDigits p.2 : Int))
  else .error .valueError

/-! ## Header model (gziptext.py dict-based pipeline) -/

/-- gziptext.py constants. -/
def FTEXT : Nat := 1

/-- FHCRC flag bit. -/
def FHCRC : Nat := 2

/-- FEXTRA flag bit. -/
def FEXTRA : Nat := 4

/-- FNAME flag bit. -/
def FNAME : Nat := 8

/-- FCOMMENT flag bit. -/
def FCOMMENT : Nat := 16

/-- Reserved flag bits 5-7. -/
def FRESERVED : Nat := 224

/-- The two gzip magic bytes. -/
def GZIP_MAGIC : List Nat := [0x1f, 0x8b]

/-- The only defined compression method. -/
def CM_DEFLATE : Int := 8

/-- The header dict of gziptext.py: the nine keys read_gzip_header can
insert, each either absent or present.  Python strs (name, comment) are
lists of Unicode code points; exfield is a byte list; the integer keys
hold Python ints. -/
structure HeaderDict where
  cm : Option Int
  flg : Option Int
  mtime : Option Int
  xfl : Option Int
  os : Option Int
  exfield : Option (List Nat)
  name : Option (List Nat)
  comment : Option (List Nat)
  crc16 : Option Int
  deriving DecidableEq, Repr

/-- The empty dict {} that read_text_header starts from. -/
def emptyHeader : HeaderDict :=
  ⟨none, none, none, none, none, none, none, none, none⟩

/-- Python flg & bit on the dict's flag value.  Every use in the source
is guarded by a prior is_i8 check (or the value comes from a single
unpacked byte), so the value is in [0, 255] whenever the test is
reached; toNat makes the Lean term total. -/
def flagSet (v : Int) (bit : Nat) : Bool := v.toNat &&& bit ≠ 0

/-- gziptext.py assert_header as a pass/fail predicate, with the
conjuncts in source order (&& short-circuits exactly where the first
failing assert would raise AssertionError).  The isinstance checks are
enforced by the model's field types, and the known_fields superset check
cannot fail because the structure has exactly the known fields. -/
def assert_header (dic : HeaderDict) : Bool :=
  dic.cm.isSome && dic.flg.isSome && dic.mtime.isSome
    && dic.xfl.isSome && dic.os.isSome
    && is_i8 (dic.cm.getD 0) && is_i8 (dic.flg.getD 0)
    && is_i32 (dic.mtime.getD 0) && is_i8 (dic.xfl.getD 0)
    && is_i8 (dic.os.getD 0)
    && (!flagSet (dic.flg.getD 0) FEXTRA || dic.exfield.isSome)
    && (!flagSet (dic.flg.getD 0) FNAME
        || (dic.name.isSome && encodable (dic.name.getD [])))
    && (!flagSet (dic.flg.getD 0) FCOMMENT
        || (dic.comment.isSome && encodable (dic.comment.getD [])))
    && (!flagSet (dic.flg.getD 0) FHCRC
        || (dic.crc16.isSome && is_i16 (dic.crc16.getD 0)))
    && (dic.cm.getD 0 == CM_DEFLATE)
    && ((dic.flg.getD 0).toNat &&& FRESERVED == 0)

/-- gziptext.py saferead: read exactly size bytes or raise IOError. -/
def saferead (s : List Nat) (size : Nat) : Except Err (List Nat × List Nat) :=
  if s.length < size then .error .ioError else .ok (s.take size, s.drop size)

/-- gziptext.py read_cstr: bytes up to a NUL terminator; IOError at
end-of-stream. -/
def read_cstr : List Nat → Except Err (List Nat × List Nat)
  | [] => .error .ioError
  | c :: rest =>
    if c = 0 then .ok ([], rest)
    else do
      let r ← read_cstr rest
      .ok (c :: r.1, r.2)

/-- The optional EXTRA field read of read_gzip_header: a 16-bit length
then that many bytes. -/
def readExfieldSeg (flg : Nat) (s : List Nat) :
    Except Err (Option (List Nat) × List Nat) :=
  if flg &&& FEXTRA ≠ 0 then do
    let (xb, t) ← saferead s 2
    let xlen ← to_i16 xb
    let (e, t2) ← saferead t xlen
    pure (some e, t2)
  else pure (none, s)

/-- The optional NUL-terminated string fields (bit selects FNAME or
FCOMMENT). -/
def readCstrSeg (flg bit : Nat) (s : List Nat) :
    Except Err (Option (List Nat) × List Nat) :=
  if flg &&& bit ≠ 0 then do
    let (c, t) ← read_cstr s
    pure (some c, t)
  else pure (none, s)

/-- The optional header CRC16 field. -/
def readCrc16Seg (flg : Nat) (s : List Nat) :
    Except Err (Option Int × List Nat) :=
  if flg &&& FHCRC ≠ 0 then do
    let (cb, t) ← saferead s 2
    let v ← to_i16 cb
    pure (some (Int.ofNat v), t)
  else pure (none, s)

/-- gziptext.py read_gzip_header on a byte list in place of the file
object; returns the dict and the unread remainder.  The 10-byte base
header is obtained by one saferead and unpacked with '<2sBBIBB'
(expressed with positional reads of the returned buffer); the magic test
follows the unpack, and the four conditional fields are read in flag
order through the named segment readers above.  The latin-1 decode of
name/comment maps byte i to code point i, an identity on these lists. -/
def read_gzip_header (s : List Nat) : Except Err (HeaderDict × List Nat) := do
  let (buf, s1) ← saferead s 10
  let magic := buf.take 2
  let cm : Int := Int.ofNat (buf.getD 2 0)
  let flg : Nat := buf.getD 3 0
  let mtime : Int := Int.ofNat (buf.getD 4 0 + 256 * buf.getD 5 0
    + 65536 * buf.getD 6 0 + 16777216 * buf.getD 7 0)
  let xfl : Int := Int.ofNat (buf.getD 8 0)
  let osv : Int := Int.ofNat (buf.getD 9 0)
  if magic ≠ GZIP_MAGIC then .error .badMagic
  else do
    let r1 ← readExfieldSeg flg s1
    let r2 ← readCstrSeg flg FNAME r1.2
    let r3 ← readCstrSeg flg FCOMMENT r2.2
    let r4 ← readCrc16Seg flg r3.2
    .ok ({ cm := some cm, flg := some (Int.ofNat flg), mtime := some mtime,
           xfl := some xfl, os := some osv, exfield := r1.1, name := r2.1,
           comment := r3.1, crc16 := r4.1 }, r4.2)

/-- Python dict[key]: KeyError when the key is absent. -/
def getKey {α : Type} (o : Option α) : Except Err α :=
  match o with
  | some v => .ok v
  | none => .error .keyError

/-- str.encode('latin-1'): identity on code points below 256,
UnicodeEncodeError otherwise. -/
def encodeLatin1 (text : List Nat) : Except Err (List Nat) :=
  if text.all (fun c => c ≤ 255) then .ok text else .error .unicodeError

/-- The optional EXTRA field write of create_gzip_header. -/
def writeExfieldSeg (flg : Int) (o : Option (List Nat)) :
    Except Err (List Nat) :=
  if flagSet flg FEXTRA then do
    let e ← getKey o
    let xl ← from_i16 (Int.ofNat e.length)
    pure (xl ++ e)
  else pure []

/-- The optional NUL-terminated string field writes (bit selects FNAME
or FCOMMENT). -/
def writeStrSeg (flg : Int) (bit : Nat) (o : Option (List Nat)) :
    Except Err (List Nat) :=
  if flagSet flg bit then do
    let nm ← getKey o
    let nb ← encodeLatin1 nm
    pure (nb ++ [0])
  else pure []

/-- The optional header CRC16 write. -/
def writeCrc16Seg (flg : Int) (o : Option Int) : Except Err (List Nat) :=
  if flagSet flg FHCRC then do
    let v ← getKey o
    from_i16 v
  else pure []

/-- gziptext.py create_gzip_header: pack the base header (with struct's
range checks), then the conditional fields in flag order through the
named segment writers above. -/
def create_gzip_header (dic : HeaderDict) : Except Err (List Nat) := do
  let cm ← getKey dic.cm
  let flg ← getKey dic.flg
  let mtime ← getKey dic.mtime
  let xfl ← getKey dic.xfl
  let osv ← getKey dic.os
  let bcm ← packU8 cm
  let bflg ← packU8 flg
  let bmt ← from_i32 mtime
  let bxfl ← packU8 xfl
  let bos ← packU8 osv
  let base := GZIP_MAGIC ++ bcm ++ bflg ++ bmt ++ bxfl ++ bos
  let r1 ← writeExfieldSeg flg dic.exfield
  let r2 ← writeStrSeg flg FNAME dic.name
  let r3 ← writeStrSeg flg FCOMMENT dic.comment
  let r4 ← writeCrc16Seg flg dic.crc16
  .ok (base ++ r1 ++ r2 ++ r3 ++ r4)

/-- One key SEP value newline line of the text format (SEP is a tab). -/
def kvLine (key : String) (val : List Nat) : List Nat :=
  s2b key ++ 9 :: val ++ [10]

/-- Line for an optional integer field (absent keys are skipped). -/
def optIntLine (key : String) : Option Int → List Nat
  | none => []
  | some v => kvLine key (pyIntStr v)

/-- Line for an optional string field (str.encode(), i.e. UTF-8). -/
def optStrLine (key : String) : Option (List Nat) → List Nat
  | none => []
  | some v => kvLine key (utf8Encode v)

/-- Line for the optional exfield (b64encode). -/
def optB64Line (key : String) : Option (List Nat) → List Nat
  | none => []
  | some v => kvLine key (encodeB64 v)

/-- gziptext.py create_text_header.  The Python iterates dic.items();
every dict reaching it was built by read_gzip_header, whose insertion
order is exactly cm, flg, mtime, xfl, os, exfield, name, comment, crc16
with absent keys skipped — the fixed order written here. -/
def create_text_header (dic : HeaderDict) : List Nat :=
  optIntLine "cm" dic.cm ++ optIntLine "flg" dic.flg
    ++ optIntLine "mtime" dic.mtime ++ optIntLine "xfl" dic.xfl
    ++ optIntLine "os" dic.os
    ++ optB64Line "exfield" dic.exfield
    ++ optStrLine "name" dic.name ++ optStrLine "comment" dic.comment
    ++ optIntLine "crc16" dic.crc16

/-- Read buffer size of the streaming loop. -/
def BUFF_SIZE : Nat := 4096

/-- Recursion worker for the chunked read loop of to_text (structural
fuel; the loop consumes BUFF_SIZE bytes per round, so any fuel of at
least s.length is adequate, and at fuel 0 s is empty so both branches
agree). -/
def payloadLoopGo : Nat → List Nat → List Nat → List Nat × List Nat
  | 0, prev, s => ([], prev ++ s)
  | fuel + 1, prev, s =>
    if s.length < BUFF_SIZE then ([], prev ++ s)
    else
      let r := payloadLoopGo fuel (s.take BUFF_SIZE) (s.drop BUFF_SIZE)
      (wrapline (encodeB64 prev) 72 ++ r.1, r.2)

/-- The chunked read loop of to_text: while each read fills the buffer,
emit the previous chunk (base64, wrapped at 72) and slide; on the first
short read stop.  Returns the emitted text and the final prev+curr
buffer. -/
def payloadLoop (prev s : List Nat) : List Nat × List Nat :=
  payloadLoopGo s.length prev s

/-- Python l[:-8]. -/
def allButLast8 (l : List Nat) : List Nat := l.take (l.length - 8)

/-- Python l[-8:-4] (start and stop clamped at 0 as Python does). -/
def sliceM8M4 (l : List Nat) : List Nat :=
  (l.drop (l.length - 8)).take ((l.length - 4) - (l.length - 8))

/-- Python l[-4:]. -/
def last4 (l : List Nat) : List Nat := l.drop (l.length - 4)

/-- gziptext.py to_text, the binary-to-text direction, with the output
stream modelled as the returned byte list.  (On an exception Python
leaves a partial prefix in the output file; the model only reports the
error.) -/
def to_text (s : List Nat) : Except Err (List Nat) := do
  let (hdic, rest) ← read_gzip_header s
  if assert_header hdic then do
    let r := payloadLoop [] rest
    let crc ← to_i32 (sliceM8M4 r.2)
    let isize ← to_i32 (last4 r.2)
    .ok (create_text_header hdic ++ s2b "----\n"
      ++ r.1 ++ wrapline (encodeB64 (allButLast8 r.2)) 72
      ++ s2b "----\n"
      ++ kvLine "crc32" (pyIntStr (Int.ofNat crc))
      ++ kvLine "isize" (pyIntStr (Int.ofNat isize)))
  else .error .assertError

/-- One line of read_text_header: rstrip, split on the tab separator
(exactly two parts or ValueError), decode the key, dispatch. -/
def parseHeaderLine (dic : HeaderDict) (bline : List Nat) :
    Except Err HeaderDict := do
  match pySplit 9 (rstrip bline) with
  | [bkey, bval] => do
    let key ← utf8Decode bkey
    if key = s2b "cm" then do
      let v ← parsePyInt bval
      .ok { dic with cm := some v }
    else if key = s2b "flg" then do
      let v ← parsePyInt bval
      .ok { dic with flg := some v }
    else if key = s2b "mtime" then do
      let v ← parsePyInt bval
      .ok { dic with mtime := some v }
    else if key = s2b "xfl" then do
      let v ← parsePyInt bval
      .ok { dic with xfl := some v }
    else if key = s2b "os" then do
      let v ← parsePyInt bval
      .ok { dic with os := some v }
    else if key = s2b "crc16" then do
      let v ← parsePyInt bval
      .ok { dic with crc16 := some v }
    else if key = s2b "name" then do
      let v ← utf8Decode bval
      .ok { dic with name := some v }
    else if key = s2b "comment" then do
      let v ← utf8Decode bval
      .ok { dic with comment := some v }
    else if key = s2b "exfield" then do
      let v ← decodeB64 bval
      .ok { dic with exfield := some v }
    else .error .valueError
  | _ => .error .valueError

/-- gziptext.py read_text_header, over the line list of the input:
consume lines into the dict until a '----' delimiter line (or end of
input, which Python's for loop exits silently). -/
def read_text_header : List (List Nat) → HeaderDict →
    Except Err (HeaderDict × List (List Nat))
  | [], dic => .ok (dic, [])
  | l :: ls, dic =>
    if rstrip l = s2b "----" then .ok (dic, ls)
    else do
      let d2 ← parseHeaderLine dic l
      read_text_header ls d2

/-- The footer dict: read_text_footer stores int(bval) under any key;
only crc32 and isize are ever read back, so other keys are dropped. -/
structure FooterDict where
  crc32v : Option Int
  isizev : Option Int
  deriving DecidableEq, Repr

/-- One line of read_text_footer. -/
def parseFooterLine (dic : FooterDict) (bline : List Nat) :
    Except Err FooterDict := do
  match pySplit 9 (rstrip bline) with
  | [bkey, bval] => do
    let key ← utf8Decode bkey
    let v ← parsePyInt bval
    if key = s2b "crc32" then .ok { dic with crc32v := some v }
    else if key = s2b "isize" then .ok { dic with isizev := some v }
    else .ok dic
  | _ => .error .valueError

/-- gziptext.py read_text_footer: every remaining line is a key/value
pair. -/
def read_text_footer : List (List Nat) → FooterDict → Except Err FooterDict
  | [], dic => .ok dic
  | l :: ls, dic => do
    let d2 ← parseFooterLine dic l
    read_text_footer ls d2

/-- The payload loop of to_gzip: b64decode each line until the section
delimiter, concatenating the decoded bytes; at end of input the loop
simply ends. -/
def readPayloadLines : List (List Nat) →
    Except Err (List Nat × List (List Nat))
  | [] => .ok ([], [])
  | l :: ls =>
    let bl := rstrip l
    if bl = s2b "----" then .ok ([], ls)
    else do
      let b ← decodeB64 bl
      let r ← readPayloadLines ls
      .ok (b ++ r.1, r.2)

/-- gziptext.py to_gzip, the text-to-binary direction, on the byte list
of the text input; returns the gzip binary written to the output. -/
def to_gzip (t : List Nat) : Except Err (List Nat) := do
  let (hdic, ls1) ← read_text_header (linesOf t) emptyHeader
  if assert_header hdic then do
    let hb ← create_gzip_header hdic
    let (payload, ls2) ← readPayloadLines ls1
    let fdic ← read_text_footer ls2 ⟨none, none⟩
    let c ← getKey fdic.crc32v
    let i ← getKey fdic.isizev
    let cb ← from_i32 c
    let ib ← from_i32 i
    .ok (hb ++ payload ++ cb ++ ib)
  else .error .assertError

/-! ## gziptext/gstruct.py — the GzipHeader flag model -/

/-- gstruct.py GzipHeader, restricted to the five flag attributes that
the flg property and set_flg read and write (the other attributes play
no part in the flag round trip). -/
structure GzipHeaderS where
  ftext : Int
  fhcrc : Int
  fextra : Int
  fname : Int
  fcomment : Int
  deriving DecidableEq, Repr

/-- gstruct.py GzipHeader.flg property: rebuild the flag byte from the
five flag attributes (Python truthiness: a nonzero attribute sets its
bit). -/
def GzipHeaderS.flg (h : GzipHeaderS) : Nat :=
  let b1 := if h.ftext ≠ 0 then 0 ||| 1 else 0
  let b2 := if h.fhcrc ≠ 0 then b1 ||| 2 else b1
  let b3 := if h.fextra ≠ 0 then b2 ||| 4 else b2
  let b4 := if h.fname ≠ 0 then b3 ||| 8 else b3
  if h.fcomment ≠ 0 then b4 ||| 16 else b4

/-- gstruct.py GzipHeader.set_flg: int(bool(flg & bit)) for each of the
five defined bits; bits 5-7 have no attribute and are not stored. -/
def GzipHeaderS.set_flg (h : GzipHeaderS) (flg : Nat) : GzipHeaderS :=
  { h with
    ftext := if flg &&& 1 ≠ 0 then 1 else 0
    fhcrc := if flg &&& 2 ≠ 0 then 1 else 0
    fextra := if flg &&& 4 ≠ 0 then 1 else 0
    fname := if flg &&& 8 ≠ 0 then 1 else 0
    fcomment := if flg &&& 16 ≠ 0 then 1 else 0 }

/-! ## gziptext/decompiler.py — Decompiler.read_header -/

/-- gstruct.py GzipHeader as touched by Decompiler.read_header: the
attributes __init__ initialises (ints to 0, os to 255, the optional
fields to None) plus xlen, which read_header assigns dynamically. -/
structure DHeader where
  id1 : Nat
  id2 : Nat
  ftext : Nat
  fhcrc : Nat
  fextra : Nat
  fname : Nat
  fcomment : Nat
  cm : Nat
  mtime : Nat
  xfl : Nat
  os : Nat
  xlen : Option Nat
  extsi1 : Option Nat
  extsi2 : Option Nat
  extdata : Option (List Nat)
  name : Option (List Nat)
  comment : Option (List Nat)
  crc16 : Option Nat
  deriving DecidableEq, Repr

/-- GzipHeader.__init__ defaults. -/
def initDHeader : DHeader :=
  ⟨0, 0, 0, 0, 0, 0, 0, 0, 0, 0, 255,
   none, none, none, none, none, none, none⟩

/-- set_flg on the decompiler's header object. -/
def DHeader.setFlg (h : DHeader) (flg : Nat) : DHeader :=
  { h with
    ftext := if flg &&& 1 ≠ 0 then 1 else 0
    fhcrc := if flg &&& 2 ≠ 0 then 1 else 0
    fextra := if flg &&& 4 ≠ 0 then 1 else 0
    fname := if flg &&& 8 ≠ 0 then 1 else 0
    fcomment := if flg &&& 16 ≠ 0 then 1 else 0 }

/-- decompiler.py fp.read(n): returns up to n bytes; short reads are not
an error here (struct.unpack fails later on a short buffer). -/
def pyRead (s : List Nat) (n : Nat) : List Nat × List Nat :=
  (s.take n, s.drop n)

/-- struct.unpack('<BBH', buf): exactly 4 bytes. -/
def unpackBBH (buf : List Nat) : Except Err (Nat × Nat × Nat) :=
  match buf with
  | [a, b, c, d] => .ok (a, b, c + 256 * d)
  | _ => .error .structError

/-- decompiler.py Decompiler.read_string: bytes up to NUL, with the
1 MB cap checked (after each read) before the end-of-stream and
terminator tests; ValueError past the cap or at end of stream.  The
latin-1 decode is the identity on byte values. -/
def read_stringD : List Nat → Nat → Except Err (List Nat × List Nat)
  | [], i => if i > 1048576 then .error .valueError else .error .valueError
  | c :: rest, i =>
    if i > 1048576 then .error .valueError
    else if c = 0 then .ok ([], rest)
    else do
      let r ← read_stringD rest (i + 1)
      .ok (c :: r.1, r.2)

/-- gziptext/decompiler.py Decompiler.read_header.  Two faithful
renderings of source defects matter here: in the FEXTRA branch the line
'if extlen != (xlen - 4)' references the bare name xlen, which is not a
local variable (the value was stored as hd.xlen), so reaching that line
raises NameError; and in the FHCRC branch 'hd.crc16 += unpack(...)'
adds a tuple to the initial None, raising TypeError. -/
def readHeaderD (s : List Nat) : Except Err (DHeader × List Nat) := do
  let p2 := pyRead s 2
  match p2.1 with
  | [i1, i2] =>
    if (i1, i2) ≠ (0x1f, 0x8b) then .error .valueError
    else do
      let p8 := pyRead p2.2 8
      match p8.1 with
      | [cm, flg, t0, t1, t2, t3, xfl, osv] => do
        let hd := (DHeader.setFlg
          { initDHeader with
            id1 := i1, id2 := i2, cm := cm,
            mtime := t0 + 256 * t1 + 65536 * t2 + 16777216 * t3,
            xfl := xfl, os := osv } flg)
        if hd.fextra ≠ 0 then do
          let px := pyRead p8.2 2
          let xlen ← to_i16 px.1
          let pbuf := pyRead px.2 xlen
          let _ ← unpackBBH (pbuf.1.take 4)
          .error .nameError
        else do
          let rn ←
            if hd.fname ≠ 0 then do
              let r ← read_stringD p8.2 1
              pure (some r.1, r.2)
            else pure ((none : Option (List Nat)), p8.2)
          let rc ←
            if hd.fcomment ≠ 0 then do
              let r ← read_stringD rn.2 1
              pure (some r.1, r.2)
            else pure ((none : Option (List Nat)), rn.2)
          if hd.fhcrc ≠ 0 then do
            let ph := pyRead rc.2 2
            let _ ← to_i16 ph.1
            .error .typeError
          else
            .ok ({ hd with name := rn.1, comment := rc.1 }, rc.2)
      | _ => .error .structError
  | _ => .error .structError

/-! ## Derived definitions used by the claims -/

/-- A header dict carrying exactly the flags of a subset S of
{FEXTRA, FNAME, FCOMMENT, FHCRC} (four Booleans) and exactly the
corresponding conditional fields, with caller-chosen field values. -/
def mkFlagHeader (fe fn fc fh : Bool) (exf nm cmt : List Nat) (c16 : Int)
    (mt xf osv : Int) : HeaderDict :=
  ⟨some 8,
   some (Int.ofNat ((if fe then FEXTRA else 0) + (if fn then FNAME else 0)
     + (if fc then FCOMMENT else 0) + (if fh then FHCRC else 0))),
   some mt, some xf, some osv,
   if fe then some exf else none,
   if fn then some nm else none,
   if fc then some cmt else none,
   if fh then some c16 else none⟩

/-- The conditions under which a header string value survives the text
round trip unchanged: nonempty, free of tab and newline code points,
and not ending in a code point whose byte bytes.rstrip strips. -/
def textSafe (s : List Nat) : Bool :=
  !s.isEmpty && s.all (fun c => c ≠ 9 && c ≠ 10)
    && !isSpaceByte (s.getLastD 0)

/-- The value of (up to) four bytes as a little-endian 32-bit word. -/
def leWord32 (l : List Nat) : Nat :=
  l.getD 0 0 + 256 * l.getD 1 0 + 65536 * l.getD 2 0 + 16777216 * l.getD 3 0

/-- Line list of an optional integer field. -/
def optIntLines (key : String) : Option Int → List (List Nat)
  | none => []
  | some v => [kvLine key (pyIntStr v)]

/-- Line list of an optional string field. -/
def optStrLines (key : String) : Option (List Nat) → List (List Nat)
  | none => []
  | some v => [kvLine key (utf8Encode v)]

/-- Line list of the optional exfield. -/
def optB64Lines (key : String) : Option (List Nat) → List (List Nat)
  | none => []
  | some v => [kvLine key (encodeB64 v)]

/-- The produced text header as a list of lines. -/
def headerLines (dic : HeaderDict) : List (List Nat) :=
  optIntLines "cm" dic.cm ++ optIntLines "flg" dic.flg
    ++ optIntLines "mtime" dic.mtime ++ optIntLines "xfl" dic.xfl
    ++ optIntLines "os" dic.os ++ optB64Lines "exfield" dic.exfield
    ++ optStrLines "name" dic.name ++ optStrLines "comment" dic.comment
    ++ optIntLines "crc16" dic.crc16

/-! # Theorems -/

/-- The well-known CRC-32 check value on "123456789" pins the modelled
algorithm to the standard one. -/
theorem crc32_check_vector : crc32 (s2b "123456789") = 0xCBF43926 := by decide

/-! ## Claim C8 — crc16 -/

/-- C8: for every byte sequence b, crc16 b is the low 16 bits of the
standard CRC-32 (ISO 3309) of b, and on the five bytes "abcde" it
equals 55397. -/
theorem crc16_low16_and_vector :
    (∀ b : List Nat, crc16 b = crc32 b &&& 0xffff)
      ∧ crc16 (s2b "abcde") = 55397 :=
  ⟨fun _ => rfl, by decide⟩

/-! ## Claim C10 — flag byte round trip through the header model -/

/-- C10: for b in [0, 255], set_flg followed by the flg property yields
b &&& 0x1F: the five defined flag bits round-trip and the reserved bits
5-7 are silently discarded. -/
theorem set_flg_flg_roundtrip (h : GzipHeaderS) (b : Nat) (hb : b ≤ 255) :
    (h.set_flg b).flg = b &&& 0x1F := by
  interval_cases b <;> (simp only [GzipHeaderS.set_flg]; decide)

/-- Witness for C10 at b = 0xED (bits 5-7 set get discarded). -/
theorem set_flg_flg_roundtrip_witness :
    (0xED : Nat) ≤ 255
      ∧ (GzipHeaderS.set_flg ⟨1, 0, 1, 0, 1⟩ 0xED).flg = 0xED &&& 0x1F :=
  ⟨by decide, set_flg_flg_roundtrip ⟨1, 0, 1, 0, 1⟩ 0xED (by decide)⟩

/-! ## Claim C6 — the FEXTRA subfield check raises NameError -/

/-- C6 (code defect): the decompiler's FEXTRA branch never reaches the
declared-length comparison as intended: the comparison line references
the undefined local xlen (the attribute is hd.xlen), so every stream
with FEXTRA set fails with NameError — here on a stream whose inner
subfield length (0) even equals outerLength - 4, which the claim says
must be accepted. -/
theorem readHeaderD_fextra_nameError :
    readHeaderD ([31, 139, 8, 4, 0, 0, 0, 0, 0, 255] ++ [4, 0] ++ [1, 2, 0, 0])
      = .error .nameError := by decide

/-! ## Claim C7 — serialization of the FNAME example header -/

/-- C7 counterexample: the example header serializes to 20 bytes (10
fixed + 9 name bytes + NUL), not the 19 the claim states. -/
theorem create_gzip_header_example_not_19 :
    create_gzip_header ⟨some 8, some 8, some 0, some 0, some 255, none,
        some (s2b "hello.txt"), none, none⟩
      = .ok ([31, 139, 8, 8, 0, 0, 0, 0, 0, 255] ++ s2b "hello.txt" ++ [0])
      ∧ ([31, 139, 8, 8, 0, 0, 0, 0, 0, 255] ++ s2b "hello.txt" ++ [0]).length
          ≠ 19 := by decide

/-- C7 (amended): the example header serializes to the 10 fixed base
bytes followed by "hello.txt" and a NUL — 20 bytes in total — and
parsing those bytes back yields the same header dict with nothing left
over. -/
theorem create_gzip_header_example_roundtrip :
    create_gzip_header ⟨some 8, some 8, some 0, some 0, some 255, none,
        some (s2b "hello.txt"), none, none⟩
      = .ok ([31, 139, 8, 8, 0, 0, 0, 0, 0, 255] ++ s2b "hello.txt" ++ [0])
      ∧ ([31, 139, 8, 8, 0, 0, 0, 0, 0, 255] ++ s2b "hello.txt" ++ [0]).length
          = 20
      ∧ read_gzip_header
            ([31, 139, 8, 8, 0, 0, 0, 0, 0, 255] ++ s2b "hello.txt" ++ [0])
          = .ok (⟨some 8, some 8, some 0, some 0, some 255, none,
              some (s2b "hello.txt"), none, none⟩, []) := by decide

/-! ## Claim C4 — magic check -/

/-- Helper: bind of a successful Except computation. -/
theorem okBind {ε α β : Type} (a : α) (f : α → Except ε β) :
    ((Except.ok a : Except ε α) >>= f) = f a := rfl

/-- Helper: bind of a failed Except computation. -/
theorem errBind {ε α β : Type} (e : ε) (f : α → Except ε β) :
    ((Except.error e : Except ε α) >>= f) = .error e := rfl

/-- C4 counterexample: a 2-byte stream whose first two bytes are not the
magic makes read_gzip_header fail with IOError (saferead of the 10-byte
base header), not BadMagicError. -/
theorem read_gzip_header_short_not_badMagic :
    read_gzip_header [0, 0] = .error .ioError
      ∧ read_gzip_header [0, 0] ≠ .error .badMagic := by decide

/-- C4 (amended): with at least the 10 fixed base-header bytes available
and the first two not 0x1f 0x8b, read_gzip_header fails with
BadMagicError — the whole 10-byte base block (which contains the other
fixed fields) is read and unpacked before the check, but no conditional
field is; with fewer than 10 bytes it fails with IOError instead.  The
package's Decompiler.read_header checks the magic after reading only 2
bytes, raising ValueError. -/
theorem read_gzip_header_magic_check :
    (∀ s : List Nat, 10 ≤ s.length → s.take 2 ≠ GZIP_MAGIC →
        read_gzip_header s = .error .badMagic)
      ∧ (∀ s : List Nat, s.length < 10 →
        read_gzip_header s = .error .ioError)
      ∧ (∀ s : List Nat, 2 ≤ s.length → s.take 2 ≠ GZIP_MAGIC →
        readHeaderD s = .error .valueError) := by
  refine ⟨fun s hlen hmagic => ?_, fun s hlen => ?_, fun s hlen hmagic => ?_⟩
  · have h1 : ¬ s.length < 10 := by omega
    have h2 : (s.take 10).take 2 = s.take 2 := by
      rw [List.take_take]
      norm_num
    simp only [read_gzip_header, saferead, h1, if_false, if_neg, okBind, h2]
    rw [if_pos hmagic]
  · simp only [read_gzip_header, saferead, if_pos hlen, errBind]
  · rcases s with _ | ⟨b0, s⟩
    · simp at hlen
    rcases s with _ | ⟨b1, s⟩
    · simp at hlen
    have hm : (b0, b1) ≠ (0x1f, 0x8b) := by
      intro hc
      apply hmagic
      simp only [List.take, GZIP_MAGIC]
      injection hc with h1 h2
      rw [h1, h2]
    simp only [readHeaderD, pyRead, List.take, List.drop]
    rw [if_pos hm]

/-- Witness for C4 on a 10-byte all-zero stream. -/
theorem read_gzip_header_magic_check_witness :
    read_gzip_header [0, 0, 0, 0, 0, 0, 0, 0, 0, 0] = .error .badMagic :=
  read_gzip_header_magic_check.1 [0, 0, 0, 0, 0, 0, 0, 0, 0, 0]
    (by decide) (by decide)

/-! ## Unfolding lemmas for the fuelled recursions -/

/-- Any fuel of at least s.length computes the same payload loop. -/
theorem payloadLoopGo_adequate (fuel : Nat) :
    ∀ (prev s : List Nat), s.length ≤ fuel →
      payloadLoopGo fuel prev s = payloadLoop prev s := by
  induction fuel using Nat.strong_induction_on with
  | _ fuel ih =>
    intro prev s hle
    rw [payloadLoop]
    match fuel, hle with
    | 0, hle =>
      have h0 : s.length = 0 := by omega
      rw [h0]
    | n + 1, hle =>
      rcases hl : s.length with _ | m
      · have hse : s = [] := List.length_eq_zero.mp hl
        subst hse
        simp [payloadLoopGo, BUFF_SIZE]
      · by_cases hs : s.length < BUFF_SIZE
        · simp only [payloadLoopGo]
          rw [if_pos hs, if_pos hs]
        · simp only [payloadLoopGo]
          rw [if_neg hs, if_neg hs]
          have hd : (s.drop BUFF_SIZE).length ≤ n := by
            simp only [List.length_drop, BUFF_SIZE] at *
            omega
          have hd2 : (s.drop BUFF_SIZE).length ≤ m := by
            simp only [List.length_drop, BUFF_SIZE] at *
            omega
          rw [ih n (by omega) _ _ hd, ih m (by omega) _ _ hd2]

/-- The loop on a short (final) read: nothing emitted, buffer kept. -/
theorem payloadLoop_short (prev s : List Nat) (h : s.length < BUFF_SIZE) :
    payloadLoop prev s = ([], prev ++ s) := by
  rw [payloadLoop]
  rcases hl : s.length with _ | m
  · have hse : s = [] := List.length_eq_zero.mp hl
    subst hse
    rfl
  · simp only [payloadLoopGo]
    rw [if_pos h]

/-- The loop on a full read: emit the previous chunk and slide. -/
theorem payloadLoop_step (prev s : List Nat) (h : ¬ s.length < BUFF_SIZE) :
    payloadLoop prev s
      = (wrapline (encodeB64 prev) 72
          ++ (payloadLoop (s.take BUFF_SIZE) (s.drop BUFF_SIZE)).1,
         (payloadLoop (s.take BUFF_SIZE) (s.drop BUFF_SIZE)).2) := by
  rw [payloadLoop]
  rcases hl : s.length with _ | m
  · exfalso
    simp only [BUFF_SIZE] at h
    omega
  · simp only [payloadLoopGo]
    rw [if_neg h]
    rw [payloadLoopGo_adequate m _ _ (by
      simp only [List.length_drop, BUFF_SIZE] at *
      omega)]

/-- Any fuel of at least b.length computes the same wrapping. -/
theorem wraplineGo_adequate (fuel : Nat) :
    ∀ (len : Nat) (b : List Nat), b.length ≤ fuel →
      wraplineGo len fuel b = wrapline b len := by
  induction fuel using Nat.strong_induction_on with
  | _ fuel ih =>
    intro len b hle
    rw [wrapline]
    match fuel, hle with
    | 0, hle =>
      have h0 : b.length = 0 := by omega
      rw [h0]
    | n + 1, hle =>
      rcases hl : b.length with _ | m
      · have hbe : b = [] := List.length_eq_zero.mp hl
        subst hbe
        simp [wraplineGo]
      · have hbne : ¬ b = [] := by
          intro hc
          rw [hc] at hl
          simp at hl
        by_cases hz : len = 0
        · simp only [wraplineGo]
          rw [if_pos (Or.inl hz), if_pos (Or.inl hz)]
        · simp only [wraplineGo]
          rw [if_neg (by tauto), if_neg (by tauto)]
          have hd : (b.drop len).length ≤ n := by
            simp only [List.length_drop]
            omega
          have hd2 : (b.drop len).length ≤ m := by
            simp only [List.length_drop]
            omega
          rw [ih n (by omega) _ _ hd, ih m (by omega) _ _ hd2]

/-- wrapline on a nonempty input with nonzero width. -/
theorem wrapline_step (b : List Nat) (len : Nat) (hb : b ≠ []) (hl : len ≠ 0) :
    wrapline b len = (b.take len ++ [10]) ++ wrapline (b.drop len) len := by
  rw [wrapline]
  rcases hn : b.length with _ | m
  · exact absurd (List.length_eq_zero.mp hn) hb
  · simp only [wraplineGo]
    rw [if_neg (by tauto)]
    rw [wraplineGo_adequate m _ _ (by
      simp only [List.length_drop]
      omega)]

/-- Any fuel of at least l.length computes the same chunk list. -/
theorem chunksOfGo_adequate (fuel : Nat) :
    ∀ (n : Nat) (l : List Nat), l.length ≤ fuel →
      chunksOfGo n fuel l = chunksOf n l := by
  induction fuel using Nat.strong_induction_on with
  | _ fuel ih =>
    intro n l hle
    rw [chunksOf]
    match fuel, hle with
    | 0, hle =>
      have h0 : l.length = 0 := by omega
      rw [h0]
    | k + 1, hle =>
      rcases hl : l.length with _ | m
      · have hbe : l = [] := List.length_eq_zero.mp hl
        subst hbe
        simp [chunksOfGo]
      · have hbne : ¬ l = [] := by
          intro hc
          rw [hc] at hl
          simp at hl
        by_cases hz : n = 0
        · simp only [chunksOfGo]
          rw [if_pos (Or.inl hz), if_pos (Or.inl hz)]
        · simp only [chunksOfGo]
          rw [if_neg (by tauto), if_neg (by tauto)]
          have hd : (l.drop n).length ≤ k := by
            simp only [List.length_drop]
            omega
          have hd2 : (l.drop n).length ≤ m := by
            simp only [List.length_drop]
            omega
          rw [ih k (by omega) _ _ hd, ih m (by omega) _ _ hd2]

/-- chunksOf on a nonempty input with nonzero width. -/
theorem chunksOf_step (n : Nat) (l : List Nat) (hb : l ≠ []) (hn : n ≠ 0) :
    chunksOf n l = l.take n :: chunksOf n (l.drop n) := by
  rw [chunksOf]
  rcases hln : l.length with _ | m
  · exact absurd (List.length_eq_zero.mp hln) hb
  · simp only [chunksOfGo]
    rw [if_neg (by tauto)]
    rw [chunksOfGo_adequate m _ _ (by
      simp only [List.length_drop]
      omega)]

/-- to_i32 on a buffer that is not exactly 4 bytes is a struct.error. -/
theorem to_i32_not_four (l : List Nat) (h : l.length ≠ 4) :
    to_i32 l = .error .structError := by
  rcases l with _ | ⟨a, _ | ⟨b, _ | ⟨c, _ | ⟨d, _ | ⟨e, t⟩⟩⟩⟩⟩ <;>
    simp [to_i32] at *

/-! ## Claim C2 — flag/field coupling in assert_header -/

/-- C2 counterexample: a header dict with the name field present while
FNAME is clear (flg = 0) passes assert_header — the validator checks
only flag-implies-field, never field-implies-flag — where the claim
requires a validation failure. -/
theorem assert_header_field_without_flag_passes :
    assert_header ⟨some 8, some 0, some 0, some 0, some 255, none,
        some [120], none, none⟩ = true := by decide

/-- C2 (amended): for every subset S of {FEXTRA, FNAME, FCOMMENT, FHCRC},
a header with exactly the flags of S set and exactly the corresponding
fields populated (with range-valid values) passes assert_header, and a
header with one of those flags set but its field absent fails; but a
header with a conditional field present while its flag is clear is NOT
rejected — the validator checks the flag-to-field direction only, as
the concrete accepted dict in the last conjunct shows. -/
theorem assert_header_flag_field_coupling :
    (∀ (fe fn fc fh : Bool) (exf nm cmt : List Nat) (c16 mt xf osv : Int),
        is_i32 mt = true → is_i8 xf = true → is_i8 osv = true →
        encodable nm = true → encodable cmt = true → is_i16 c16 = true →
        assert_header (mkFlagHeader fe fn fc fh exf nm cmt c16 mt xf osv)
          = true)
      ∧ (∀ d : HeaderDict,
        ((flagSet (d.flg.getD 0) FEXTRA ∧ d.exfield = none)
          ∨ (flagSet (d.flg.getD 0) FNAME ∧ d.name = none)
          ∨ (flagSet (d.flg.getD 0) FCOMMENT ∧ d.comment = none)
          ∨ (flagSet (d.flg.getD 0) FHCRC ∧ d.crc16 = none)) →
        assert_header d = false)
      ∧ assert_header ⟨some 8, some 0, some 0, some 0, some 255, none,
          some [120], none, none⟩ = true := by
  refine ⟨fun fe fn fc fh exf nm cmt c16 mt xf osv hmt hxf hos hnm hcmt hc16 => ?_,
    fun d h => ?_, by decide⟩
  · rcases fe <;> rcases fn <;> rcases fc <;> rcases fh <;>
      simp_all [mkFlagHeader, assert_header, flagSet, FEXTRA, FNAME,
        FCOMMENT, FHCRC, FRESERVED, CM_DEFLATE, is_i8, is_i16, is_i32,
        encodable] <;> decide
  · rcases h with ⟨hf, he⟩ | ⟨hf, he⟩ | ⟨hf, he⟩ | ⟨hf, he⟩ <;>
      simp_all [assert_header]

/-- Witness for C2 at S = {FNAME, FHCRC} with valid field values. -/
theorem assert_header_flag_field_coupling_witness :
    is_i32 123 = true ∧ is_i8 2 = true ∧ is_i8 255 = true
      ∧ encodable (s2b "a.txt") = true ∧ encodable [] = true
      ∧ is_i16 999 = true
      ∧ assert_header
          (mkFlagHeader false true false true [] (s2b "a.txt") [] 999 123 2 255)
          = true :=
  ⟨by decide, by decide, by decide, by decide, by decide, by decide,
    assert_header_flag_field_coupling.1 false true false true [] (s2b "a.txt")
      [] 999 123 2 255 (by decide) (by decide) (by decide) (by decide)
      (by decide) (by decide)⟩

/-! ## Claim C5 — exactly 8 bytes after the header -/

/-- C5: when the region after the header is exactly 8 bytes, to_text
emits an empty payload section (nothing between the two delimiter
lines) and footer fields equal to the two little-endian 32-bit words of
those 8 bytes. -/
theorem to_text_zero_payload (s : List Nat) (h : HeaderDict) (rest : List Nat)
    (hread : read_gzip_header s = .ok (h, rest))
    (hassert : assert_header h = true)
    (hlen : rest.length = 8) :
    to_text s = .ok (create_text_header h ++ s2b "----\n" ++ s2b "----\n"
      ++ kvLine "crc32" (pyIntStr (Int.ofNat (leWord32 (rest.take 4))))
      ++ kvLine "isize" (pyIntStr (Int.ofNat (leWord32 (rest.drop 4))))) := by
  rcases rest with _ | ⟨f0, _ | ⟨f1, _ | ⟨f2, _ | ⟨f3, _ | ⟨f4, _ | ⟨f5,
    _ | ⟨f6, _ | ⟨f7, _ | ⟨f8, t⟩⟩⟩⟩⟩⟩⟩⟩⟩ <;> simp only [List.length] at hlen <;>
    try omega
  simp only [to_text, hread, okBind]
  rw [if_pos hassert]
  rw [payloadLoop_short [] _ (by simp [BUFF_SIZE])]
  simp only [List.nil_append, sliceM8M4, last4, allButLast8, List.length,
    leWord32]
  norm_num
  simp only [List.take, List.drop, to_i32, okBind, wrapline, wraplineGo,
    encodeB64, List.length, List.getD, List.get?, List.append_nil]
  rfl

/-- Witness for C5 on a minimal stream: bare header plus an 8-byte
footer region with crc32 = 1 and isize = 2. -/
theorem to_text_zero_payload_witness :
    read_gzip_header ([31, 139, 8, 0, 0, 0, 0, 0, 0, 255]
          ++ [1, 0, 0, 0, 2, 0, 0, 0])
        = .ok (⟨some 8, some 0, some 0, some 0, some 255,
            none, none, none, none⟩, [1, 0, 0, 0, 2, 0, 0, 0])
      ∧ assert_header ⟨some 8, some 0, some 0, some 0, some 255,
            none, none, none, none⟩ = true
      ∧ ([1, 0, 0, 0, 2, 0, 0, 0] : List Nat).length = 8
      ∧ to_text ([31, 139, 8, 0, 0, 0, 0, 0, 0, 255]
          ++ [1, 0, 0, 0, 2, 0, 0, 0])
        = .ok (create_text_header ⟨some 8, some 0, some 0, some 0, some 255,
              none, none, none, none⟩ ++ s2b "----\n" ++ s2b "----\n"
            ++ kvLine "crc32" (pyIntStr (Int.ofNat
                (leWord32 (([1, 0, 0, 0, 2, 0, 0, 0] : List Nat).take 4))))
            ++ kvLine "isize" (pyIntStr (Int.ofNat
                (leWord32 (([1, 0, 0, 0, 2, 0, 0, 0] : List Nat).drop 4))))) :=
  ⟨by decide, by decide, by decide,
    to_text_zero_payload _ _ [1, 0, 0, 0, 2, 0, 0, 0] (by decide) (by decide)
      (by decide)⟩

/-! ## Claim C3 — region after the header shorter than 8 bytes -/

/-- C3 counterexample: on a stream whose region after the header is 3
bytes, to_text fails with struct.error (the footer unpack receives
fewer than 4 bytes) — not with a TruncatedInputError, a class that does
not exist anywhere in the code. -/
theorem to_text_short_not_truncated :
    to_text ([31, 139, 8, 0, 0, 0, 0, 0, 0, 255] ++ [1, 2, 3])
        = .error .structError
      ∧ to_text ([31, 139, 8, 0, 0, 0, 0, 0, 0, 255] ++ [1, 2, 3])
        ≠ .error .truncatedInput := by decide

/-- C3 (amended): for every input whose region after the header is
shorter than 8 bytes, to_text fails — with struct.error from unpacking
the footer words out of the too-short tail (Python's clamped slicing
yields an empty, not negative-length, payload slice), not with the
spec-named TruncatedInputError, which no code defines. -/
theorem to_text_short_region (s : List Nat) (h : HeaderDict) (rest : List Nat)
    (hread : read_gzip_header s = .ok (h, rest))
    (hassert : assert_header h = true)
    (hlen : rest.length < 8) :
    to_text s = .error .structError := by
  simp only [to_text, hread, okBind]
  rw [if_pos hassert]
  rw [payloadLoop_short [] rest (by simp only [BUFF_SIZE]; omega)]
  simp only [List.nil_append]
  rw [to_i32_not_four _ (by
    simp only [sliceM8M4, List.length_take, List.length_drop]
    omega)]
  rfl

/-- Witness for C3 on a stream with a 2-byte region after the header. -/
theorem to_text_short_region_witness :
    read_gzip_header ([31, 139, 8, 0, 0, 0, 0, 0, 0, 255] ++ [9, 9])
        = .ok (⟨some 8, some 0, some 0, some 0, some 255,
            none, none, none, none⟩, [9, 9])
      ∧ assert_header ⟨some 8, some 0, some 0, some 0, some 255,
            none, none, none, none⟩ = true
      ∧ ([9, 9] : List Nat).length < 8
      ∧ to_text ([31, 139, 8, 0, 0, 0, 0, 0, 0, 255] ++ [9, 9])
        = .error .structError :=
  ⟨by decide, by decide, by decide,
    to_text_short_region ([31, 139, 8, 0, 0, 0, 0, 0, 0, 255] ++ [9, 9])
      ⟨some 8, some 0, some 0, some 0, some 255, none, none, none, none⟩
      [9, 9] (by decide) (by decide) (by decide)⟩

/-! ## Claim C9 — line wrapping at exact multiples of 72 -/

/-- wrapline is the concatenation of the newline-terminated chunks. -/
theorem wrapline_eq_flatten (len : Nat) (hl : len ≠ 0) (b : List Nat) :
    wrapline b len = ((chunksOf len b).map (fun c => c ++ [10])).flatten := by
  suffices H : ∀ (n : Nat) (b : List Nat), b.length ≤ n →
      wrapline b len = ((chunksOf len b).map (fun c => c ++ [10])).flatten by
    exact H b.length b le_rfl
  intro n
  induction n with
  | zero =>
    intro b hb
    have hbe : b = [] := List.length_eq_zero.mp (by omega)
    subst hbe
    rfl
  | succ n ih =>
    intro b hb
    rcases b with _ | ⟨c, t⟩
    · rfl
    · rw [wrapline_step _ _ (by simp) hl, chunksOf_step _ _ (by simp) hl]
      simp only [List.map_cons, List.flatten_cons]
      rw [ih _ (by
        simp only [List.length_drop, List.length_cons] at hb ⊢
        omega)]

/-- On a byte string of length exactly n * k, chunksOf n yields k chunks
of length n each. -/
theorem chunksOf_full (n : Nat) (hn : n ≠ 0) :
    ∀ (k : Nat) (b : List Nat), b.length = n * k →
      (∀ c ∈ chunksOf n b, c.length = n) ∧ (chunksOf n b).length = k := by
  intro k
  induction k with
  | zero =>
    intro b hb
    have hbe : b = [] := List.length_eq_zero.mp (by omega)
    subst hbe
    exact ⟨by simp [chunksOf, chunksOfGo], rfl⟩
  | succ k ih =>
    intro b hb
    have hlb : b.length = n * k + n := by rw [hb]; ring
    have hbne : b ≠ [] := by
      intro hc
      subst hc
      simp at hlb
      omega
    rw [chunksOf_step n b hbne hn]
    have htake : (b.take n).length = n := by
      simp only [List.length_take]
      omega
    have hdrop : (b.drop n).length = n * k := by
      simp only [List.length_drop]
      omega
    obtain ⟨h1, h2⟩ := ih (b.drop n) hdrop
    refine ⟨?_, by simp [h2]⟩
    intro c hc
    rcases List.mem_cons.mp hc with rfl | hc
    · exact htake
    · exact h1 c hc

/-- Every element of every chunk is an element of the original list. -/
theorem chunksOf_mem (n : Nat) (hn : n ≠ 0) :
    ∀ (N : Nat) (l : List Nat), l.length ≤ N →
      ∀ c ∈ chunksOf n l, ∀ x ∈ c, x ∈ l := by
  intro N
  induction N with
  | zero =>
    intro l hle c hc
    have hbe : l = [] := List.length_eq_zero.mp (by omega)
    subst hbe
    simp [chunksOf, chunksOfGo] at hc
  | succ N ih =>
    intro l hle c hc x hx
    rcases l with _ | ⟨a, t⟩
    · simp [chunksOf, chunksOfGo] at hc
    · rw [chunksOf_step n _ (by simp) hn] at hc
      rcases List.mem_cons.mp hc with rfl | hc
      · exact List.take_subset n _ hx
      · exact List.drop_subset n _
          (ih _ (by simp only [List.length_drop, List.length_cons] at *; omega)
            c hc x hx)

/-- Every base64 alphabet character is clean: not whitespace, not a tab,
not a newline, not a dash. -/
theorem b64alpha_clean :
    ∀ c ∈ b64alpha, isSpaceByte c = false ∧ c ≠ 9 ∧ c ≠ 10 ∧ c ≠ 45 := by
  decide

/-- b64char yields an alphabet character or the out-of-range default 0
(the encoder only produces in-range indices on byte-valued input). -/
theorem b64char_mem (i : Nat) : b64char i ∈ b64alpha ∨ b64char i = 0 := by
  by_cases h : i < b64alpha.length
  · left
    simp only [b64char, List.getD_eq_getElem _ _ h]
    exact List.getElem_mem h
  · right
    exact List.getD_eq_default _ _ (le_of_not_lt h)

/-- Every byte of a base64 encoding is clean (not whitespace, tab,
newline, or dash). -/
theorem encodeB64_clean :
    ∀ (x : List Nat), ∀ c ∈ encodeB64 x,
      isSpaceByte c = false ∧ c ≠ 9 ∧ c ≠ 10 ∧ c ≠ 45 := by
  have halpha : ∀ i, isSpaceByte (b64char i) = false ∧ b64char i ≠ 9
      ∧ b64char i ≠ 10 ∧ b64char i ≠ 45 := by
    intro i
    rcases b64char_mem i with h | h
    · exact b64alpha_clean _ h
    · rw [h]
      refine ⟨rfl, by decide, by decide, by decide⟩
  intro x
  induction x using encodeB64.induct with
  | case1 => simp [encodeB64]
  | case2 b1 =>
    intro c hc
    simp only [encodeB64, List.mem_cons] at hc
    rcases hc with rfl | rfl | rfl | rfl | hc
    · exact halpha _
    · exact halpha _
    · exact ⟨rfl, by decide, by decide, by decide⟩
    · exact ⟨rfl, by decide, by decide, by decide⟩
    · simp at hc
  | case3 b1 b2 =>
    intro c hc
    simp only [encodeB64, List.mem_cons] at hc
    rcases hc with rfl | rfl | rfl | rfl | hc
    · exact halpha _
    · exact halpha _
    · exact halpha _
    · exact ⟨rfl, by decide, by decide, by decide⟩
    · simp at hc
  | case4 b1 b2 b3 rest ih =>
    intro c hc
    simp only [encodeB64, List.mem_cons] at hc
    rcases hc with rfl | rfl | rfl | rfl | hc
    · exact halpha _
    · exact halpha _
    · exact halpha _
    · exact halpha _
    · exact ih c hc

/-- linesGo when the stream starts with a newline-free body followed by
a newline: one line is produced. -/
theorem linesGo_flatten_line (body rest acc : List Nat)
    (hb : ∀ x ∈ body, x ≠ 10) :
    linesGo acc (body ++ 10 :: rest)
      = ((acc.reverse ++ body) ++ [10]) :: linesGo [] rest := by
  induction body generalizing acc with
  | nil => simp [linesGo]
  | cons c t ih =>
    have hc : c ≠ 10 := hb c (by simp)
    simp only [List.cons_append, linesGo]
    rw [if_neg hc]
    simp only [List.append_eq]
    rw [ih (c :: acc) (fun x hx => hb x (by simp [hx]))]
    simp

/-- linesOf recovers the line list from the flattened text when every
line is newline-terminated with a newline-free body. -/
theorem linesOf_flatten (ls : List (List Nat))
    (h : ∀ l ∈ ls, ∃ body, l = body ++ [10] ∧ ∀ x ∈ body, x ≠ 10) :
    linesOf ls.flatten = ls := by
  induction ls with
  | nil => rfl
  | cons l t ih =>
    obtain ⟨body, rfl, hbody⟩ := h l (by simp)
    have heq : (body ++ [10]) ++ t.flatten = body ++ 10 :: t.flatten := by
      simp
    rw [List.flatten_cons, linesOf, heq,
      linesGo_flatten_line body _ [] hbody]
    rw [show linesGo ([] : List Nat) t.flatten = linesOf t.flatten from rfl]
    rw [ih (fun l hl => h l (by simp [hl]))]
    simp

/-- C9: when the base64 encoding of a payload is a positive exact
multiple of 72 characters long, wrapline emits exactly k full
72-character newline-terminated lines — in particular no trailing empty
line. -/
theorem wrapline_exact_multiple (x : List Nat) (k : Nat)
    (hlen : (encodeB64 x).length = 72 * k) (hk : 0 < k) :
    linesOf (wrapline (encodeB64 x) 72)
        = (chunksOf 72 (encodeB64 x)).map (fun c => c ++ [10])
      ∧ (∀ c ∈ chunksOf 72 (encodeB64 x), c.length = 72)
      ∧ (chunksOf 72 (encodeB64 x)).length = k := by
  obtain ⟨hfull, hcount⟩ := chunksOf_full 72 (by decide) k _ hlen
  refine ⟨?_, hfull, hcount⟩
  rw [wrapline_eq_flatten 72 (by decide)]
  apply linesOf_flatten
  intro l hl
  obtain ⟨c, hc, rfl⟩ := List.mem_map.mp hl
  refine ⟨c, rfl, ?_⟩
  intro ch hch
  have hmem : ch ∈ encodeB64 x :=
    chunksOf_mem 72 (by decide) (encodeB64 x).length _ le_rfl c hc ch hch
  exact (encodeB64_clean x ch hmem).2.2.1

/-- Witness for C9 at k = 1: a 54-byte payload whose encoding is
exactly 72 characters. -/
theorem wrapline_exact_multiple_witness :
    (encodeB64 (List.replicate 54 7)).length = 72 * 1
      ∧ 0 < 1
      ∧ (linesOf (wrapline (encodeB64 (List.replicate 54 7)) 72)
          = (chunksOf 72 (encodeB64 (List.replicate 54 7))).map
              (fun c => c ++ [10])
        ∧ (∀ c ∈ chunksOf 72 (encodeB64 (List.replicate 54 7)),
            c.length = 72)
        ∧ (chunksOf 72 (encodeB64 (List.replicate 54 7))).length = 1) :=
  ⟨by decide, by decide,
    wrapline_exact_multiple (List.replicate 54 7) 1 (by decide) (by decide)⟩

/-! ## Round-trip infrastructure: decimal integers -/

/-- Digits produced by natToDecGo are ASCII digits. -/
theorem natToDecGo_digits (fuel : Nat) :
    ∀ n : Nat, ∀ d ∈ natToDecGo n fuel, isDigitByte d = true := by
  induction fuel with
  | zero => intro n d hd; simp [natToDecGo] at hd
  | succ f ih =>
    intro n d hd
    simp only [natToDecGo] at hd
    by_cases hn : n = 0
    · rw [if_pos hn] at hd
      simp at hd
    · rw [if_neg hn] at hd
      rcases List.mem_append.mp hd with hd | hd
      · exact ih _ d hd
      · simp only [List.mem_singleton] at hd
        subst hd
        simp only [isDigitByte, Bool.and_eq_true, decide_eq_true_eq]
        omega

/-- The accumulator-form evaluation of the produced digits. -/
theorem natToDecGo_foldl (fuel : Nat) :
    ∀ (n acc : Nat), n ≤ fuel →
      List.foldl (fun a d => a * 10 + (d - 48)) acc (natToDecGo n fuel)
        = acc * 10 ^ (natToDecGo n fuel).length + n := by
  induction fuel with
  | zero =>
    intro n acc hle
    have h0 : n = 0 := by omega
    subst h0
    simp [natToDecGo]
  | succ f ih =>
    intro n acc hle
    by_cases hn : n = 0
    · subst hn
      simp [natToDecGo]
    · simp only [natToDecGo, if_neg hn]
      rw [List.foldl_append]
      rw [ih (n / 10) acc (by omega)]
      simp only [List.foldl, List.length_append, List.length_singleton]
      rw [pow_succ]
      have hd : 48 + n % 10 - 48 = n % 10 := by omega
      rw [hd]
      have hmod : n / 10 * 10 + n % 10 = n := by omega
      set L := (natToDecGo (n / 10) f).length with hL
      have hring : (acc * 10 ^ L + n / 10) * 10 + n % 10
          = acc * (10 ^ L * 10) + (n / 10 * 10 + n % 10) := by ring
      rw [hring, hmod]

/-- Parsing the decimal form of n gives back n. -/
theorem parseDigits_natToDec (n : Nat) : parseDigits (natToDec n) = n := by
  by_cases hn : n = 0
  · subst hn
    decide
  · rw [natToDec, if_neg hn, parseDigits, natToDecGo_foldl n n 0 le_rfl]
    simp

/-- All bytes of natToDec are ASCII digits. -/
theorem natToDec_digits (n : Nat) : ∀ d ∈ natToDec n, isDigitByte d = true := by
  intro d hd
  rw [natToDec] at hd
  by_cases hn : n = 0
  · rw [if_pos hn] at hd
    simp only [List.mem_singleton] at hd
    subst hd
    decide
  · rw [if_neg hn] at hd
    exact natToDecGo_digits n n d hd

/-- natToDec is never empty. -/
theorem natToDec_ne_nil (n : Nat) : natToDec n ≠ [] := by
  rw [natToDec]
  by_cases hn : n = 0
  · rw [if_pos hn]
    simp
  · rw [if_neg hn]
    obtain ⟨m, rfl⟩ : ∃ m, n = m + 1 := ⟨n - 1, by omega⟩
    simp [natToDecGo, hn]

/-! ## Round-trip infrastructure: stripping and splitting -/

/-- rstrip is the identity when the last byte is not whitespace. -/
theorem rstrip_eq_self (l : List Nat)
    (h : ∀ c, l.getLast? = some c → isSpaceByte c = false) : rstrip l = l := by
  rw [rstrip]
  rcases hrev : l.reverse with _ | ⟨c, r⟩
  · rw [List.reverse_eq_nil_iff] at hrev
    subst hrev
    rfl
  · have hc : l.getLast? = some c := by
      rw [← List.head?_reverse, hrev]
      rfl
    rw [List.dropWhile_cons, h c hc]
    simp only [Bool.false_eq_true, if_false]
    rw [← hrev, List.reverse_reverse]

/-- rstrip removes a trailing newline. -/
theorem rstrip_newline (l : List Nat) : rstrip (l ++ [10]) = rstrip l := by
  have h : (l ++ [10]).reverse = 10 :: l.reverse := by simp
  rw [rstrip, h, List.dropWhile_cons]
  rw [show isSpaceByte 10 = true from rfl]
  rfl

/-- pySplit on a separator-free list is the singleton. -/
theorem pySplit_single (sep : Nat) :
    ∀ (l : List Nat), (∀ c ∈ l, c ≠ sep) → pySplit sep l = [l] := by
  intro l
  induction l with
  | nil => intro _; rfl
  | cons c t ih =>
    intro h
    have hc : c ≠ sep := h c (by simp)
    simp only [pySplit]
    rw [if_neg hc, ih (fun x hx => h x (by simp [hx]))]

/-- pySplit on key ++ sep :: val with separator-free parts. -/
theorem pySplit_pair (sep : Nat) (k v : List Nat)
    (hk : ∀ c ∈ k, c ≠ sep) (hv : ∀ c ∈ v, c ≠ sep) :
    pySplit sep (k ++ sep :: v) = [k, v] := by
  induction k with
  | nil =>
    simp [pySplit, pySplit_single sep v hv]
  | cons c t ih =>
    have hc : c ≠ sep := hk c (by simp)
    simp only [List.cons_append, pySplit]
    rw [if_neg hc]
    simp only [List.append_eq]
    rw [ih (fun x hx => hk x (by simp [hx]))]

/-- The normalised split of a produced key/value line. -/
theorem split_kvLine (key : String) (val : List Nat)
    (hkey : ∀ c ∈ s2b key, c ≠ 9) (hne : val ≠ [])
    (hval : ∀ c ∈ val, c ≠ 9)
    (hlast : ∀ c, val.getLast? = some c → isSpaceByte c = false) :
    pySplit 9 (rstrip (kvLine key val)) = [s2b key, val] := by
  have h1 : kvLine key val = (s2b key ++ 9 :: val) ++ [10] := by
    simp [kvLine]
  rw [h1, rstrip_newline]
  rw [rstrip_eq_self _ ?_]
  · exact pySplit_pair 9 (s2b key) val hkey hval
  · intro c hc
    rw [List.getLast?_append_cons] at hc
    rw [show (9 :: val : List Nat) = [9] ++ val from rfl,
      List.getLast?_append_of_ne_nil [9] hne] at hc
    exact hlast c hc

/-! ## Round-trip infrastructure: UTF-8 -/

/-- utf8Encode distributes over cons. -/
theorem utf8Encode_cons (c : Nat) (t : List Nat) :
    utf8Encode (c :: t) = utf8Char c ++ utf8Encode t := by
  simp [utf8Encode]

/-- A successful single decode consumes part of the stream. -/
theorem utf8DecodeOne_le (c1 : Nat) (rest : List Nat) (cp : Nat)
    (r : List Nat) (h : utf8DecodeOne c1 rest = .ok (cp, r)) :
    r.length ≤ rest.length := by
  unfold utf8DecodeOne at h
  split at h
  · injection h with h
    injection h with _ h
    subst h
    exact le_rfl
  · split at h
    · split at h
      · split at h
        · injection h with h
          injection h with _ h
          subst h
          simp
        · exact absurd h (by simp)
      · exact absurd h (by simp)
    · split at h
      · split at h
        · split at h
          · dsimp only at h
            split at h
            · injection h with h
              injection h with _ h
              subst h
              simp
              omega
            · exact absurd h (by simp)
          · exact absurd h (by simp)
        · exact absurd h (by simp)
      · split at h
        · split at h
          · split at h
            · dsimp only at h
              split at h
              · injection h with h
                injection h with _ h
                subst h
                simp
                omega
              · exact absurd h (by simp)
            · exact absurd h (by simp)
          · exact absurd h (by simp)
        · exact absurd h (by simp)

/-- Any fuel of at least l.length computes the same decode. -/
theorem utf8DecodeGo_adequate (fuel : Nat) :
    ∀ (l : List Nat), l.length ≤ fuel →
      utf8DecodeGo fuel l = utf8Decode l := by
  induction fuel using Nat.strong_induction_on with
  | _ fuel ih =>
    intro l hle
    rw [utf8Decode]
    match fuel, hle with
    | 0, hle =>
      have h0 : l.length = 0 := by omega
      rw [h0]
    | n + 1, hle =>
      rcases l with _ | ⟨c1, rest⟩
      · rfl
      simp only [List.length_cons]
      simp only [utf8DecodeGo]
      cases hone : utf8DecodeOne c1 rest with
      | error e => rw [errBind, errBind]
      | ok r =>
        rw [okBind, okBind]
        have hr : r.2.length ≤ rest.length := utf8DecodeOne_le c1 rest r.1 r.2
          (by rw [hone])
        simp only [List.length_cons] at hle
        rw [ih n (by omega) r.2 (by omega),
          ih rest.length (by omega) r.2 hr]

/-- Unfolding utf8Decode after a successful single decode. -/
theorem utf8Decode_cons_ok (c1 : Nat) (rest : List Nat) (cp : Nat)
    (r : List Nat) (h : utf8DecodeOne c1 rest = .ok (cp, r)) :
    utf8Decode (c1 :: rest)
      = (do
          let t ← utf8Decode r
          .ok (cp :: t) : Except Err (List Nat)) := by
  rw [utf8Decode]
  simp only [List.length_cons, utf8DecodeGo, h, okBind]
  rw [utf8DecodeGo_adequate rest.length r
    (utf8DecodeOne_le c1 rest cp r h)]

/-- Decoding an encoded latin-1-representable string gives it back. -/
theorem utf8Decode_encode (s : List Nat) (h : ∀ c ∈ s, c ≤ 255) :
    utf8Decode (utf8Encode s) = .ok s := by
  induction s with
  | nil => rfl
  | cons c t ih =>
    have hc : c ≤ 255 := h c (by simp)
    have iht := ih (fun x hx => h x (by simp [hx]))
    rw [utf8Encode_cons]
    by_cases hlt : c < 128
    · rw [show utf8Char c = [c] from by rw [utf8Char, if_pos hlt]]
      simp only [List.cons_append, List.nil_append]
      rw [utf8Decode_cons_ok c _ c _ (by
        unfold utf8DecodeOne
        rw [if_pos hlt])]
      rw [iht, okBind]
    · rw [show utf8Char c = [192 + c / 64, 128 + c % 64] from by
        rw [utf8Char, if_neg hlt, if_pos (by omega)]]
      simp only [List.cons_append, List.nil_append]
      rw [utf8Decode_cons_ok _ _ c _ (by
        unfold utf8DecodeOne
        rw [if_neg (by omega)]
        rw [if_pos (by
          simp only [Bool.and_eq_true, decide_eq_true_eq]
          omega)]
        simp only []
        rw [if_pos (by
          simp only [utf8Cont, Bool.and_eq_true, decide_eq_true_eq]
          omega)]
        have heq : (192 + c / 64 - 192) * 64 + (128 + c % 64 - 128) = c := by
          omega
        rw [heq])]
      rw [iht, okBind]

/-! ## Round-trip infrastructure: base64 -/

/-- The alphabet inverse recovers an in-range index. -/
theorem b64inv_char (i : Nat) (h : i < 64) : b64inv (b64char i) = .ok i := by
  interval_cases i <;> rfl

/-- No alphabet character is the padding character. -/
theorem b64char_ne_61 (i : Nat) : b64char i ≠ 61 := by
  rcases b64char_mem i with h | h
  · intro hc
    rw [hc] at h
    revert h
    decide
  · rw [h]
    decide

/-- The length of a base64 encoding. -/
theorem encodeB64_length : ∀ x : List Nat,
    (encodeB64 x).length = 4 * ((x.length + 2) / 3) := by
  intro x
  induction x using encodeB64.induct with
  | case1 => rfl
  | case2 b1 => simp [encodeB64]
  | case3 b1 b2 => simp [encodeB64]
  | case4 b1 b2 b3 rest ih =>
    simp only [encodeB64, List.length_cons, ih]
    omega

/-- Decoding an encoding of a byte string gives the bytes back. -/
theorem decodeB64_encodeB64 : ∀ (x : List Nat), (∀ b ∈ x, b < 256) →
    decodeB64 (encodeB64 x) = .ok x := by
  intro x
  induction x using encodeB64.induct with
  | case1 => intro _; rfl
  | case2 b1 =>
    intro h
    have hb : b1 < 256 := h b1 (by simp)
    simp only [encodeB64, decodeB64]
    rw [if_pos (by decide)]
    rw [b64inv_char _ (by omega), okBind, b64inv_char _ (by omega), okBind]
    simp only [Except.ok.injEq, List.cons.injEq, and_true]
    omega
  | case3 b1 b2 =>
    intro h
    have hb1 : b1 < 256 := h b1 (by simp)
    have hb2 : b2 < 256 := h b2 (by simp)
    simp only [encodeB64, decodeB64]
    rw [if_neg (by simp [b64char_ne_61])]
    rw [if_pos (by decide)]
    rw [b64inv_char _ (by omega), okBind, b64inv_char _ (by omega), okBind,
      b64inv_char _ (by omega), okBind]
    simp only [Except.ok.injEq, List.cons.injEq, and_true]
    omega
  | case4 b1 b2 b3 rest ih =>
    intro h
    have hb1 : b1 < 256 := h b1 (by simp)
    have hb2 : b2 < 256 := h b2 (by simp)
    have hb3 : b3 < 256 := h b3 (by simp)
    have iht := ih (fun x hx => h x (by simp [hx]))
    simp only [encodeB64, decodeB64]
    rw [if_neg (by simp [b64char_ne_61])]
    rw [if_neg (by simp [b64char_ne_61])]
    rw [b64inv_char _ (by omega), okBind, b64inv_char _ (by omega), okBind,
      b64inv_char _ (by omega), okBind, b64inv_char _ (by omega), okBind]
    rw [iht, okBind]
    simp only [Except.ok.injEq, List.cons.injEq, and_true]
    refine ⟨by omega, by omega, by omega⟩

/-- encodeB64 distributes over an append at a multiple of 3. -/
theorem encodeB64_append : ∀ (a b : List Nat), a.length % 3 = 0 →
    encodeB64 (a ++ b) = encodeB64 a ++ encodeB64 b := by
  intro a
  induction a using encodeB64.induct with
  | case1 => intro b _; rfl
  | case2 b1 => intro b h; simp at h
  | case3 b1 b2 => intro b h; simp at h
  | case4 b1 b2 b3 rest ih =>
    intro b h
    simp only [List.cons_append]
    simp only [encodeB64]
    rw [ih b (by simp only [List.length_cons] at h; omega)]
    simp [List.append_assoc]

/-- Rebuilding a list from its chunks. -/
theorem chunksOf_flatten (n : Nat) (hn : n ≠ 0) :
    ∀ (N : Nat) (l : List Nat), l.length ≤ N → (chunksOf n l).flatten = l := by
  intro N
  induction N with
  | zero =>
    intro l h
    have hl : l = [] := List.length_eq_zero.mp (by omega)
    subst hl
    rfl
  | succ N ih =>
    intro l h
    rcases l with _ | ⟨c, t⟩
    · rfl
    · rw [chunksOf_step n _ (by simp) hn]
      simp only [List.flatten_cons]
      rw [ih _ (by
        simp only [List.length_drop, List.length_cons] at h ⊢
        omega)]
      exact List.take_append_drop n (c :: t)

/-- The 72-character chunks of an encoding are the encodings of the
54-byte chunks of the input. -/
theorem chunksOf72_encode : ∀ (N : Nat) (x : List Nat), x.length ≤ N →
    chunksOf 72 (encodeB64 x) = (chunksOf 54 x).map encodeB64 := by
  intro N
  induction N with
  | zero =>
    intro x h
    have hx : x = [] := List.length_eq_zero.mp (by omega)
    subst hx
    rfl
  | succ N ih =>
    intro x h
    rcases x with _ | ⟨c, t⟩
    · rfl
    by_cases hlen : (c :: t).length ≤ 54
    · have hence : encodeB64 (c :: t) ≠ [] := by
        intro hc
        have hel := encodeB64_length (c :: t)
        rw [hc] at hel
        simp only [List.length_nil, List.length_cons] at hel
        omega
      rw [chunksOf_step 72 _ hence (by decide),
        chunksOf_step 54 _ (by simp) (by decide)]
      have he_len : (encodeB64 (c :: t)).length ≤ 72 := by
        rw [encodeB64_length]
        simp only [List.length_cons] at hlen ⊢
        omega
      rw [List.take_of_length_le he_len, List.drop_eq_nil_of_le he_len,
        List.take_of_length_le hlen, List.drop_eq_nil_of_le hlen]
      rfl
    · have hxt : (c :: t) = (c :: t).take 54 ++ (c :: t).drop 54 :=
        (List.take_append_drop _ _).symm
      rw [chunksOf_step 54 _ (by simp) (by decide)]
      conv_lhs => rw [hxt]
      rw [encodeB64_append _ _ (by
        simp only [List.length_take, List.length_cons] at *
        omega)]
      have hl1 : (encodeB64 ((c :: t).take 54)).length = 72 := by
        rw [encodeB64_length]
        simp only [List.length_take, List.length_cons] at *
        omega
      have hne : encodeB64 ((c :: t).take 54) ++ encodeB64 ((c :: t).drop 54)
          ≠ [] := by
        intro hc
        rw [List.append_eq_nil] at hc
        have := hl1
        rw [hc.1] at this
        simp at this
      rw [chunksOf_step 72 _ hne (by decide)]
      rw [List.take_left' hl1, List.drop_left' hl1]
      rw [ih ((c :: t).drop 54) (by
        simp only [List.length_drop, List.length_cons] at *
        omega)]
      simp

/-! ## Round-trip infrastructure: the streaming loop -/

/-- The final buffer keeps at least 8 bytes when 8 were available. -/
theorem payloadLoop_snd_len (N : Nat) :
    ∀ (prev s : List Nat), s.length ≤ N → 8 ≤ prev.length + s.length →
      8 ≤ (payloadLoop prev s).2.length := by
  induction N with
  | zero =>
    intro prev s hle h8
    rw [payloadLoop_short prev s (by simp only [BUFF_SIZE]; omega)]
    simp only [List.length_append]
    omega
  | succ N ih =>
    intro prev s hle h8
    by_cases hs : s.length < BUFF_SIZE
    · rw [payloadLoop_short prev s hs]
      simp only [List.length_append]
      omega
    · rw [payloadLoop_step prev s hs]
      exact ih _ _
        (by simp only [List.length_drop, BUFF_SIZE] at *; omega)
        (by simp only [List.length_take, List.length_drop, BUFF_SIZE] at *; omega)

/-- The loop's emitted text is the base64 lines of a chunk list whose
flattening, followed by the final buffer, is the whole input; every
chunk byte comes from the input. -/
theorem payloadLoop_spec (N : Nat) :
    ∀ (prev s : List Nat), s.length ≤ N →
      ∃ cs : List (List Nat),
        (payloadLoop prev s).1
            = ((cs.map (fun c => encodeB64 c ++ [10]))).flatten
          ∧ cs.flatten ++ (payloadLoop prev s).2 = prev ++ s
          ∧ ∀ c ∈ cs, ∀ b ∈ c, b ∈ prev ++ s := by
  induction N with
  | zero =>
    intro prev s h
    rw [payloadLoop_short prev s (by simp only [BUFF_SIZE]; omega)]
    exact ⟨[], rfl, rfl, by simp⟩
  | succ N ih =>
    intro prev s h
    by_cases hs : s.length < BUFF_SIZE
    · rw [payloadLoop_short prev s hs]
      exact ⟨[], rfl, rfl, by simp⟩
    · rw [payloadLoop_step prev s hs]
      obtain ⟨cs, h1, h2, h3⟩ := ih (s.take BUFF_SIZE) (s.drop BUFF_SIZE)
        (by simp only [List.length_drop, BUFF_SIZE] at *; omega)
      refine ⟨chunksOf 54 prev ++ cs, ?_, ?_, ?_⟩
      · simp only [List.map_append, List.flatten_append]
        rw [h1]
        congr 1
        rw [wrapline_eq_flatten 72 (by decide)]
        rw [chunksOf72_encode prev.length prev le_rfl]
        rw [List.map_map]
        rfl
      · simp only [List.flatten_append]
        rw [chunksOf_flatten 54 (by decide) prev.length prev le_rfl]
        conv_rhs => rw [← List.take_append_drop BUFF_SIZE s]
        rw [List.append_assoc, h2]
      · intro c hc b hb
        rcases List.mem_append.mp hc with hc | hc
        · exact List.mem_append.mpr (Or.inl
            (chunksOf_mem 54 (by decide) prev.length prev le_rfl c hc b hb))
        · rcases List.mem_append.mp (h3 c hc b hb) with hm | hm
          · exact List.mem_append.mpr (Or.inr (List.take_subset _ _ hm))
          · exact List.mem_append.mpr (Or.inr (List.drop_subset _ _ hm))

/-! ## Round-trip infrastructure: parsing the produced lines -/

/-- The witnessed last element of a list is a member. -/
theorem getLast?_mem' {l : List Nat} {c : Nat} (h : l.getLast? = some c) :
    c ∈ l := by
  obtain ⟨hne, rfl⟩ := List.mem_getLast?_eq_getLast (Option.mem_def.mpr h)
  exact List.getLast_mem hne

/-- Digit bytes are clean for the line format. -/
theorem digit_clean (c : Nat) (h : isDigitByte c = true) :
    isSpaceByte c = false ∧ c ≠ 9 ∧ c ≠ 10 ∧ c ≠ 45 ∧ c ≠ 43 := by
  simp only [isDigitByte, Bool.and_eq_true, decide_eq_true_eq] at h
  simp only [isSpaceByte]
  refine ⟨by simp; omega, by omega, by omega, by omega, by omega⟩

/-- int() on a pure digit string succeeds with its value. -/
theorem parsePyInt_digits (l : List Nat) (hne : l ≠ [])
    (hd : ∀ c ∈ l, isDigitByte c = true) :
    parsePyInt l = .ok (Int.ofNat (parseDigits l)) := by
  have hstrip : pyStrip l = l := by
    rw [pyStrip, rstrip_eq_self l (fun c hc =>
      (digit_clean c (hd c (getLast?_mem' hc))).1)]
    rcases l with _ | ⟨c, t⟩
    · rfl
    · rw [List.dropWhile_cons, (digit_clean c (hd c (by simp))).1]
      simp
  rcases l with _ | ⟨c, t⟩
  · exact absurd rfl hne
  have hc := digit_clean c (hd c (by simp))
  unfold parsePyInt
  rw [hstrip]
  simp only []
  rw [if_neg hc.2.2.2.1, if_neg hc.2.2.2.2]
  rw [if_pos ⟨by simp, by simp only [List.all_eq_true]; exact hd⟩]
  simp

/-- str() of a nonnegative int is its decimal digits. -/
theorem pyIntStr_ofNat (n : Nat) : pyIntStr (Int.ofNat n) = natToDec n := by
  rw [pyIntStr, if_neg (by simp)]
  simp

/-- int(str(n)) round trip. -/
theorem parse_pyIntStr (n : Nat) :
    parsePyInt (pyIntStr (Int.ofNat n)) = .ok (Int.ofNat n) := by
  rw [pyIntStr_ofNat,
    parsePyInt_digits _ (natToDec_ne_nil n) (natToDec_digits n),
    parseDigits_natToDec]

/-- The stripped form of a produced key/value line. -/
theorem rstrip_kvLine (key : String) (val : List Nat)
    (hne : val ≠ []) (hval : ∀ c ∈ val, c ≠ 9 ∧ c ≠ 10)
    (hlast : ∀ c, val.getLast? = some c → isSpaceByte c = false) :
    rstrip (kvLine key val) = s2b key ++ 9 :: val := by
  have h1 : kvLine key val = (s2b key ++ 9 :: val) ++ [10] := by
    simp [kvLine]
  rw [h1, rstrip_newline]
  refine rstrip_eq_self _ ?_
  intro c hc
  rw [List.getLast?_append_cons] at hc
  rw [show (9 :: val : List Nat) = [9] ++ val from rfl,
    List.getLast?_append_of_ne_nil [9] hne] at hc
  exact hlast c hc

/-- A produced key/value line never reads as the section delimiter. -/
theorem rstrip_kvLine_ne_dashes (key : String) (val : List Nat)
    (hne : val ≠ []) (hval : ∀ c ∈ val, c ≠ 9 ∧ c ≠ 10)
    (hlast : ∀ c, val.getLast? = some c → isSpaceByte c = false) :
    rstrip (kvLine key val) ≠ s2b "----" := by
  rw [rstrip_kvLine key val hne hval hlast]
  intro hEq
  have h9 : (9 : Nat) ∈ s2b key ++ 9 :: val := by simp
  rw [hEq] at h9
  revert h9
  decide

/-- One consuming step of the text-header reader. -/
theorem read_text_header_cons (l : List Nat) (ls : List (List Nat))
    (dic upd : HeaderDict)
    (hne : rstrip l ≠ s2b "----")
    (hparse : parseHeaderLine dic l = .ok upd) :
    read_text_header (l :: ls) dic = read_text_header ls upd := by
  rw [read_text_header]
  rw [if_neg hne, hparse, okBind]

/-- The delimiter line ends the text header. -/
theorem read_text_header_dashes (ls : List (List Nat)) (dic : HeaderDict) :
    read_text_header (s2b "----\n" :: ls) dic = .ok (dic, ls) := by
  rw [read_text_header]
  rw [if_pos (by decide)]

/-- int() of the decimal digits of n. -/
theorem parse_natToDec (n : Nat) :
    parsePyInt (natToDec n) = .ok (Int.ofNat n) := by
  rw [parsePyInt_digits _ (natToDec_ne_nil n) (natToDec_digits n),
    parseDigits_natToDec]

/-- The decimal value satisfies the line-format side conditions. -/
theorem natToDec_clean (n : Nat) :
    natToDec n ≠ [] ∧ (∀ c ∈ natToDec n, c ≠ 9 ∧ c ≠ 10)
      ∧ ∀ c, (natToDec n).getLast? = some c → isSpaceByte c = false :=
  ⟨natToDec_ne_nil n,
   fun c hc => ⟨(digit_clean c (natToDec_digits n c hc)).2.1,
     (digit_clean c (natToDec_digits n c hc)).2.2.1⟩,
   fun c hc => (digit_clean c (natToDec_digits n c (getLast?_mem' hc))).1⟩

/-- Elimination form of textSafe. -/
theorem textSafe_elim (s : List Nat) (h : textSafe s = true) :
    s ≠ [] ∧ (∀ c ∈ s, c ≠ 9 ∧ c ≠ 10)
      ∧ isSpaceByte (s.getLastD 0) = false := by
  simp only [textSafe, Bool.and_eq_true, Bool.not_eq_true', List.all_eq_true,
    Bool.and_eq_true, decide_eq_true_eq] at h
  obtain ⟨⟨h1, h2⟩, h3⟩ := h
  refine ⟨?_, h2, h3⟩
  intro hc
  subst hc
  simp at h1

/-- utf8Char is never empty. -/
theorem utf8Char_ne_nil (c : Nat) : utf8Char c ≠ [] := by
  unfold utf8Char
  split
  · simp
  · split
    · simp
    · split <;> simp

/-- utf8Encode distributes over append. -/
theorem utf8Encode_append (a b : List Nat) :
    utf8Encode (a ++ b) = utf8Encode a ++ utf8Encode b := by
  simp [utf8Encode]

/-- utf8Encode of a nonempty string is nonempty. -/
theorem utf8Encode_ne_nil (nm : List Nat) (h : nm ≠ []) :
    utf8Encode nm ≠ [] := by
  rcases nm with _ | ⟨c, t⟩
  · exact absurd rfl h
  · rw [utf8Encode_cons]
    intro hc
    rw [List.append_eq_nil] at hc
    exact utf8Char_ne_nil c hc.1

/-- Encoded bytes of a tab/newline-free latin-1 string carry no tab or
newline. -/
theorem utf8Encode_clean (nm : List Nat) (hcp : ∀ c ∈ nm, c ≤ 255)
    (hsafe : ∀ c ∈ nm, c ≠ 9 ∧ c ≠ 10) :
    ∀ b ∈ utf8Encode nm, b ≠ 9 ∧ b ≠ 10 := by
  intro b hb
  rw [utf8Encode] at hb
  simp only [List.mem_flatten, List.mem_map] at hb
  obtain ⟨l, ⟨c, hc, rfl⟩, hbl⟩ := hb
  have hc255 := hcp c hc
  have hcs := hsafe c hc
  rw [utf8Char] at hbl
  by_cases h1 : c < 128
  · rw [if_pos h1] at hbl
    simp only [List.mem_singleton] at hbl
    subst hbl
    exact hcs
  · rw [if_neg h1, if_pos (by omega)] at hbl
    simp only [List.mem_cons, List.mem_singleton] at hbl
    rcases hbl with rfl | rfl | hfalse
    · constructor <;> omega
    · constructor <;> omega
    · simp at hfalse

/-- The last encoded byte of a text-safe latin-1 string is not
whitespace. -/
theorem utf8Encode_getLast (nm : List Nat) (hcp : ∀ c ∈ nm, c ≤ 255)
    (hne : nm ≠ []) (hlast : isSpaceByte (nm.getLastD 0) = false) :
    ∀ b, (utf8Encode nm).getLast? = some b → isSpaceByte b = false := by
  rcases List.eq_nil_or_concat' nm with rfl | ⟨L, c, rfl⟩
  · exact absurd rfl hne
  · intro b hb
    rw [utf8Encode_append] at hb
    rw [List.getLast?_append_of_ne_nil _ (utf8Encode_ne_nil [c] (by simp))]
      at hb
    have hc255 : c ≤ 255 := hcp c (by simp)
    have hlast' : isSpaceByte c = false := by
      rwa [List.getLastD_concat] at hlast
    rw [show utf8Encode [c] = utf8Char c from by simp [utf8Encode]] at hb
    rw [utf8Char] at hb
    by_cases h1 : c < 128
    · rw [if_pos h1] at hb
      simp only [List.getLast?_singleton, Option.some.injEq] at hb
      subst hb
      exact hlast'
    · rw [if_neg h1, if_pos (by omega)] at hb
      simp only [List.getLast?_cons_cons, List.getLast?_singleton,
        Option.some.injEq] at hb
      subst hb
      simp only [isSpaceByte, Bool.or_eq_false_iff, decide_eq_false_iff_not]
      omega

/-- encodeB64 of nonempty input is nonempty. -/
theorem encodeB64_ne_nil (e : List Nat) (h : e ≠ []) : encodeB64 e ≠ [] := by
  intro hc
  have hl := encodeB64_length e
  rw [hc] at hl
  rcases e with _ | ⟨c, t⟩
  · exact absurd rfl h
  · simp only [List.length_nil, List.length_cons] at hl
    omega

/-- Line-format side conditions for a base64 value. -/
theorem encodeB64_val_clean (e : List Nat) :
    (∀ c ∈ encodeB64 e, c ≠ 9 ∧ c ≠ 10)
      ∧ ∀ c, (encodeB64 e).getLast? = some c → isSpaceByte c = false :=
  ⟨fun c hc => ⟨(encodeB64_clean e c hc).2.1, (encodeB64_clean e c hc).2.2.1⟩,
   fun c hc => (encodeB64_clean e c (getLast?_mem' hc)).1⟩

/-- Dispatch of the cm line. -/
theorem parseHeaderLine_cm (dic : HeaderDict) (n : Nat) :
    parseHeaderLine dic (kvLine "cm" (pyIntStr (Int.ofNat n)))
      = .ok { dic with cm := some (Int.ofNat n) } := by
  unfold parseHeaderLine
  rw [pyIntStr_ofNat]
  rw [split_kvLine "cm" (natToDec n) (by decide) (natToDec_clean n).1
    (fun c hc => ((natToDec_clean n).2.1 c hc).1) (natToDec_clean n).2.2]
  simp only []
  rw [show utf8Decode (s2b "cm") = .ok (s2b "cm") from by decide, okBind]
  rw [if_pos rfl]
  rw [parse_natToDec n, okBind]

/-- Dispatch of the flg line. -/
theorem parseHeaderLine_flg (dic : HeaderDict) (n : Nat) :
    parseHeaderLine dic (kvLine "flg" (pyIntStr (Int.ofNat n)))
      = .ok { dic with flg := some (Int.ofNat n) } := by
  unfold parseHeaderLine
  rw [pyIntStr_ofNat]
  rw [split_kvLine "flg" (natToDec n) (by decide) (natToDec_clean n).1
    (fun c hc => ((natToDec_clean n).2.1 c hc).1) (natToDec_clean n).2.2]
  simp only []
  rw [show utf8Decode (s2b "flg") = .ok (s2b "flg") from by decide, okBind]
  rw [if_neg (by decide), if_pos rfl]
  rw [parse_natToDec n, okBind]

/-- Dispatch of the mtime line. -/
theorem parseHeaderLine_mtime (dic : HeaderDict) (n : Nat) :
    parseHeaderLine dic (kvLine "mtime" (pyIntStr (Int.ofNat n)))
      = .ok { dic with mtime := some (Int.ofNat n) } := by
  unfold parseHeaderLine
  rw [pyIntStr_ofNat]
  rw [split_kvLine "mtime" (natToDec n) (by decide) (natToDec_clean n).1
    (fun c hc => ((natToDec_clean n).2.1 c hc).1) (natToDec_clean n).2.2]
  simp only []
  rw [show utf8Decode (s2b "mtime") = .ok (s2b "mtime") from by decide, okBind]
  rw [if_neg (by decide), if_neg (by decide), if_pos rfl]
  rw [parse_natToDec n, okBind]

/-- Dispatch of the xfl line. -/
theorem parseHeaderLine_xfl (dic : HeaderDict) (n : Nat) :
    parseHeaderLine dic (kvLine "xfl" (pyIntStr (Int.ofNat n)))
      = .ok { dic with xfl := some (Int.ofNat n) } := by
  unfold parseHeaderLine
  rw [pyIntStr_ofNat]
  rw [split_kvLine "xfl" (natToDec n) (by decide) (natToDec_clean n).1
    (fun c hc => ((natToDec_clean n).2.1 c hc).1) (natToDec_clean n).2.2]
  simp only []
  rw [show utf8Decode (s2b "xfl") = .ok (s2b "xfl") from by decide, okBind]
  rw [if_neg (by decide), if_neg (by decide), if_neg (by decide), if_pos rfl]
  rw [parse_natToDec n, okBind]

/-- Dispatch of the os line. -/
theorem parseHeaderLine_os (dic : HeaderDict) (n : Nat) :
    parseHeaderLine dic (kvLine "os" (pyIntStr (Int.ofNat n)))
      = .ok { dic with os := some (Int.ofNat n) } := by
  unfold parseHeaderLine
  rw [pyIntStr_ofNat]
  rw [split_kvLine "os" (natToDec n) (by decide) (natToDec_clean n).1
    (fun c hc => ((natToDec_clean n).2.1 c hc).1) (natToDec_clean n).2.2]
  simp only []
  rw [show utf8Decode (s2b "os") = .ok (s2b "os") from by decide, okBind]
  rw [if_neg (by decide), if_neg (by decide), if_neg (by decide),
    if_neg (by decide), if_pos rfl]
  rw [parse_natToDec n, okBind]

/-- Dispatch of the crc16 line. -/
theorem parseHeaderLine_crc16 (dic : HeaderDict) (n : Nat) :
    parseHeaderLine dic (kvLine "crc16" (pyIntStr (Int.ofNat n)))
      = .ok { dic with crc16 := some (Int.ofNat n) } := by
  unfold parseHeaderLine
  rw [pyIntStr_ofNat]
  rw [split_kvLine "crc16" (natToDec n) (by decide) (natToDec_clean n).1
    (fun c hc => ((natToDec_clean n).2.1 c hc).1) (natToDec_clean n).2.2]
  simp only []
  rw [show utf8Decode (s2b "crc16") = .ok (s2b "crc16") from by decide, okBind]
  rw [if_neg (by decide), if_neg (by decide), if_neg (by decide),
    if_neg (by decide), if_neg (by decide), if_pos rfl]
  rw [parse_natToDec n, okBind]

/-- Dispatch of the name line. -/
theorem parseHeaderLine_name (dic : HeaderDict) (nm : List Nat)
    (hcp : ∀ c ∈ nm, c ≤ 255) (hsafe : textSafe nm = true) :
    parseHeaderLine dic (kvLine "name" (utf8Encode nm))
      = .ok { dic with name := some nm } := by
  obtain ⟨hne, hclean, hlast⟩ := textSafe_elim nm hsafe
  unfold parseHeaderLine
  rw [split_kvLine "name" (utf8Encode nm) (by decide)
    (utf8Encode_ne_nil nm hne)
    (fun b hb => (utf8Encode_clean nm hcp hclean b hb).1)
    (utf8Encode_getLast nm hcp hne hlast)]
  simp only []
  rw [show utf8Decode (s2b "name") = .ok (s2b "name") from by decide, okBind]
  rw [if_neg (by decide), if_neg (by decide), if_neg (by decide),
    if_neg (by decide), if_neg (by decide), if_neg (by decide), if_pos rfl]
  rw [utf8Decode_encode nm hcp, okBind]

/-- Dispatch of the comment line. -/
theorem parseHeaderLine_comment (dic : HeaderDict) (cv : List Nat)
    (hcp : ∀ c ∈ cv, c ≤ 255) (hsafe : textSafe cv = true) :
    parseHeaderLine dic (kvLine "comment" (utf8Encode cv))
      = .ok { dic with comment := some cv } := by
  obtain ⟨hne, hclean, hlast⟩ := textSafe_elim cv hsafe
  unfold parseHeaderLine
  rw [split_kvLine "comment" (utf8Encode cv) (by decide)
    (utf8Encode_ne_nil cv hne)
    (fun b hb => (utf8Encode_clean cv hcp hclean b hb).1)
    (utf8Encode_getLast cv hcp hne hlast)]
  simp only []
  rw [show utf8Decode (s2b "comment") = .ok (s2b "comment") from by decide,
    okBind]
  rw [if_neg (by decide), if_neg (by decide), if_neg (by decide),
    if_neg (by decide), if_neg (by decide), if_neg (by decide),
    if_neg (by decide), if_pos rfl]
  rw [utf8Decode_encode cv hcp, okBind]

/-- Dispatch of the exfield line. -/
theorem parseHeaderLine_exfield (dic : HeaderDict) (e : List Nat)
    (hb : ∀ b ∈ e, b < 256) (hne : e ≠ []) :
    parseHeaderLine dic (kvLine "exfield" (encodeB64 e))
      = .ok { dic with exfield := some e } := by
  unfold parseHeaderLine
  rw [split_kvLine "exfield" (encodeB64 e) (by decide)
    (encodeB64_ne_nil e hne) (fun c hc => ((encodeB64_val_clean e).1 c hc).1)
    (encodeB64_val_clean e).2]
  simp only []
  rw [show utf8Decode (s2b "exfield") = .ok (s2b "exfield") from by decide,
    okBind]
  rw [if_neg (by decide), if_neg (by decide), if_neg (by decide),
    if_neg (by decide), if_neg (by decide), if_neg (by decide),
    if_neg (by decide), if_neg (by decide), if_pos rfl]
  rw [decodeB64_encodeB64 e hb, okBind]

/-- Dispatch of the crc32 footer line. -/
theorem parseFooterLine_crc32 (dic : FooterDict) (n : Nat) :
    parseFooterLine dic (kvLine "crc32" (pyIntStr (Int.ofNat n)))
      = .ok { dic with crc32v := some (Int.ofNat n) } := by
  unfold parseFooterLine
  rw [pyIntStr_ofNat]
  rw [split_kvLine "crc32" (natToDec n) (by decide) (natToDec_clean n).1
    (fun c hc => ((natToDec_clean n).2.1 c hc).1) (natToDec_clean n).2.2]
  simp only []
  rw [show utf8Decode (s2b "crc32") = .ok (s2b "crc32") from by decide, okBind]
  rw [parse_natToDec n, okBind]
  rw [if_pos rfl]

/-- Dispatch of the isize footer line. -/
theorem parseFooterLine_isize (dic : FooterDict) (n : Nat) :
    parseFooterLine dic (kvLine "isize" (pyIntStr (Int.ofNat n)))
      = .ok { dic with isizev := some (Int.ofNat n) } := by
  unfold parseFooterLine
  rw [pyIntStr_ofNat]
  rw [split_kvLine "isize" (natToDec n) (by decide) (natToDec_clean n).1
    (fun c hc => ((natToDec_clean n).2.1 c hc).1) (natToDec_clean n).2.2]
  simp only []
  rw [show utf8Decode (s2b "isize") = .ok (s2b "isize") from by decide, okBind]
  rw [parse_natToDec n, okBind]
  rw [if_neg (by decide), if_pos rfl]

/-- The two footer lines produce the two stored words. -/
theorem read_text_footer_pair (c i : Nat) :
    read_text_footer [kvLine "crc32" (pyIntStr (Int.ofNat c)),
        kvLine "isize" (pyIntStr (Int.ofNat i))] ⟨none, none⟩
      = .ok ⟨some (Int.ofNat c), some (Int.ofNat i)⟩ := by
  rw [read_text_footer, parseFooterLine_crc32, okBind]
  rw [read_text_footer, parseFooterLine_isize, okBind]
  rfl

/-- The delimiter line ends the payload section. -/
theorem readPayloadLines_dashes (ls : List (List Nat)) :
    readPayloadLines (s2b "----\n" :: ls) = .ok ([], ls) := by
  rw [readPayloadLines]
  rw [if_pos (by decide)]

/-- Reading the base64 line blocks of a chunk list decodes to its
flattening. -/
theorem readPayloadLines_blocks (cs : List (List Nat)) :
    ∀ (ls : List (List Nat)), (∀ c ∈ cs, ∀ b ∈ c, b < 256) →
      readPayloadLines ((cs.map (fun c => encodeB64 c ++ [10])) ++ ls)
        = (do
            let r ← readPayloadLines ls
            .ok (cs.flatten ++ r.1, r.2) :
              Except Err (List Nat × List (List Nat))) := by
  induction cs with
  | nil =>
    intro ls _
    simp only [List.map_nil, List.nil_append, List.flatten_nil]
    cases hr : readPayloadLines ls with
    | error e => rw [errBind]
    | ok r => rw [okBind]
  | cons c cst ih =>
    intro ls h
    simp only [List.map_cons, List.cons_append]
    rw [readPayloadLines]
    rw [show rstrip (encodeB64 c ++ [10]) = encodeB64 c from by
      rw [rstrip_newline]
      exact rstrip_eq_self _
        (fun x hx => (encodeB64_clean c x (getLast?_mem' hx)).1)]
    rw [if_neg (by
      intro hEq
      have h45 : (45 : Nat) ∈ encodeB64 c := by
        rw [hEq]
        decide
      exact (encodeB64_clean c 45 h45).2.2.2 rfl)]
    rw [decodeB64_encodeB64 c (fun b hb => h c (by simp) b hb), okBind]
    rw [ih ls (fun x hx b hb => h x (by simp [hx]) b hb)]
    cases hr : readPayloadLines ls with
    | error e => simp only [errBind]
    | ok r =>
      simp only [okBind]
      simp

/-- Flattening the per-field line lists gives the produced header. -/
theorem optIntLine_flatten (k : String) (o : Option Int) :
    (optIntLines k o).flatten = optIntLine k o := by
  cases o <;> simp [optIntLines, optIntLine]

/-- Flattening of an optional string segment. -/
theorem optStrLine_flatten (k : String) (o : Option (List Nat)) :
    (optStrLines k o).flatten = optStrLine k o := by
  cases o <;> simp [optStrLines, optStrLine]

/-- Flattening of the optional exfield segment. -/
theorem optB64Line_flatten (k : String) (o : Option (List Nat)) :
    (optB64Lines k o).flatten = optB64Line k o := by
  cases o <;> simp [optB64Lines, optB64Line]

/-- The produced text header is the flattening of its line list. -/
theorem create_text_header_eq (dic : HeaderDict) :
    create_text_header dic = (headerLines dic).flatten := by
  simp [create_text_header, headerLines, List.flatten_append,
    optIntLine_flatten, optStrLine_flatten, optB64Line_flatten]

/-! ## Round-trip infrastructure: inverting the binary header reader -/

/-- Successful saferead splits the stream. -/
theorem saferead_inv (s : List Nat) (n : Nat) (a b : List Nat)
    (h : saferead s n = .ok (a, b)) :
    s = a ++ b ∧ a.length = n := by
  rw [saferead] at h
  by_cases hl : s.length < n
  · rw [if_pos hl] at h
    exact absurd h (by simp)
  · rw [if_neg hl] at h
    injection h with h
    obtain ⟨h1, h2⟩ := Prod.mk.injEq .. |>.mp h
    subst h1
    subst h2
    refine ⟨(List.take_append_drop n s).symm, ?_⟩
    simp only [List.length_take]
    omega

/-- Successful to_i16 is a 2-byte little-endian value. -/
theorem to_i16_inv (buf : List Nat) (v : Nat) (h : to_i16 buf = .ok v) :
    ∃ b0 b1, buf = [b0, b1] ∧ v = b0 + 256 * b1 := by
  match buf, h with
  | [b0, b1], h =>
    refine ⟨b0, b1, rfl, ?_⟩
    rw [to_i16] at h
    injection h with h
    omega

/-- Successful read_cstr splits the stream at the first NUL. -/
theorem read_cstr_inv : ∀ (s str rest : List Nat),
    read_cstr s = .ok (str, rest) →
      s = str ++ 0 :: rest ∧ ∀ c ∈ str, c ≠ 0 := by
  intro s
  induction s with
  | nil => intro str rest h; simp [read_cstr] at h
  | cons c t ih =>
    intro str rest h
    rw [read_cstr] at h
    by_cases hc : c = 0
    · rw [if_pos hc] at h
      injection h with h
      obtain ⟨h1, h2⟩ := Prod.mk.injEq .. |>.mp h
      subst h1
      subst h2
      subst hc
      exact ⟨rfl, by simp⟩
    · rw [if_neg hc] at h
      cases hr : read_cstr t with
      | error e =>
        rw [hr, errBind] at h
        exact absurd h (by simp)
      | ok r =>
        rw [hr, okBind] at h
        injection h with h
        obtain ⟨h1, h2⟩ := Prod.mk.injEq .. |>.mp h
        subst h2
        obtain ⟨hs, hnz⟩ := ih r.1 r.2 (by rw [hr])
        subst h1
        constructor
        · rw [hs]
          simp
        · intro x hx
          rcases List.mem_cons.mp hx with rfl | hx
          · exact hc
          · exact hnz x hx

/-- Inversion of the EXTRA segment reader. -/
theorem readExfieldSeg_inv (flg : Nat) (s : List Nat)
    (r : Option (List Nat) × List Nat)
    (h : readExfieldSeg flg s = .ok r) :
    ∃ seg, s = seg ++ r.2
      ∧ (if flg &&& FEXTRA ≠ 0
          then ∃ x0 x1 e, r.1 = some e ∧ e.length = x0 + 256 * x1
            ∧ seg = x0 :: x1 :: e
          else r.1 = none ∧ seg = []) := by
  rw [readExfieldSeg] at h
  by_cases hf : flg &&& FEXTRA ≠ 0
  · rw [if_pos hf] at h
    cases h1 : saferead s 2 with
    | error e => rw [h1, errBind] at h; exact absurd h (by simp)
    | ok p1 =>
      rw [h1, okBind] at h
      obtain ⟨xb, t⟩ := p1
      simp only [] at h
      obtain ⟨hs1, hl1⟩ := saferead_inv s 2 xb t (by rw [h1])
      cases h2 : to_i16 xb with
      | error e => rw [h2, errBind] at h; exact absurd h (by simp)
      | ok xlen =>
        rw [h2, okBind] at h
        obtain ⟨x0, x1, hxb, hxv⟩ := to_i16_inv xb xlen (by rw [h2])
        cases h3 : saferead t xlen with
        | error e => rw [h3, errBind] at h; exact absurd h (by simp)
        | ok p2 =>
          rw [h3, okBind] at h
          obtain ⟨e2, t2⟩ := p2
          simp only [] at h
          obtain ⟨hs2, hl2⟩ := saferead_inv t xlen e2 t2 (by rw [h3])
          injection h with h
          subst h
          refine ⟨x0 :: x1 :: e2, ?_, ?_⟩
          · rw [hs1, hxb, hs2]
            simp
          · rw [if_pos hf]
            exact ⟨x0, x1, e2, rfl, by omega, rfl⟩
  · rw [if_neg hf] at h
    injection h with h
    subst h
    refine ⟨[], by simp, ?_⟩
    rw [if_neg hf]
    exact ⟨rfl, rfl⟩

/-- Inversion of the NUL-terminated string segment reader. -/
theorem readCstrSeg_inv (flg bit : Nat) (s : List Nat)
    (r : Option (List Nat) × List Nat)
    (h : readCstrSeg flg bit s = .ok r) :
    ∃ seg, s = seg ++ r.2
      ∧ (if flg &&& bit ≠ 0
          then ∃ nm, r.1 = some nm ∧ (∀ c ∈ nm, c ≠ 0) ∧ seg = nm ++ [0]
          else r.1 = none ∧ seg = []) := by
  rw [readCstrSeg] at h
  by_cases hf : flg &&& bit ≠ 0
  · rw [if_pos hf] at h
    cases h1 : read_cstr s with
    | error e => rw [h1, errBind] at h; exact absurd h (by simp)
    | ok p1 =>
      rw [h1, okBind] at h
      obtain ⟨nm, t⟩ := p1
      simp only [] at h
      obtain ⟨hs1, hnz⟩ := read_cstr_inv s nm t (by rw [h1])
      injection h with h
      subst h
      refine ⟨nm ++ [0], ?_, ?_⟩
      · rw [hs1]
        simp
      · rw [if_pos hf]
        exact ⟨nm, rfl, hnz, rfl⟩
  · rw [if_neg hf] at h
    injection h with h
    subst h
    refine ⟨[], by simp, ?_⟩
    rw [if_neg hf]
    exact ⟨rfl, rfl⟩

/-- Inversion of the header-CRC segment reader. -/
theorem readCrc16Seg_inv (flg : Nat) (s : List Nat)
    (r : Option Int × List Nat)
    (h : readCrc16Seg flg s = .ok r) :
    ∃ seg, s = seg ++ r.2
      ∧ (if flg &&& FHCRC ≠ 0
          then ∃ c0 c1, r.1 = some (Int.ofNat (c0 + 256 * c1))
            ∧ seg = [c0, c1]
          else r.1 = none ∧ seg = []) := by
  rw [readCrc16Seg] at h
  by_cases hf : flg &&& FHCRC ≠ 0
  · rw [if_pos hf] at h
    cases h1 : saferead s 2 with
    | error e => rw [h1, errBind] at h; exact absurd h (by simp)
    | ok p1 =>
      rw [h1, okBind] at h
      obtain ⟨cb, t⟩ := p1
      simp only [] at h
      obtain ⟨hs1, hl1⟩ := saferead_inv s 2 cb t (by rw [h1])
      cases h2 : to_i16 cb with
      | error e => rw [h2, errBind] at h; exact absurd h (by simp)
      | ok v =>
        rw [h2, okBind] at h
        obtain ⟨c0, c1, hcb, hcv⟩ := to_i16_inv cb v (by rw [h2])
        injection h with h
        subst h
        refine ⟨[c0, c1], ?_, ?_⟩
        · rw [hs1, hcb]
        · rw [if_pos hf]
          exact ⟨c0, c1, by rw [hcv], rfl⟩
  · rw [if_neg hf] at h
    injection h with h
    subst h
    refine ⟨[], by simp, ?_⟩
    rw [if_neg hf]
    exact ⟨rfl, rfl⟩

/-- Full inversion of a successful binary header read: the stream is the
fixed 10-byte base block followed by the four conditional segments and
the remainder, and the dict fields are determined accordingly. -/
theorem read_gzip_header_inv (s : List Nat) (h : HeaderDict)
    (rest : List Nat) (hread : read_gzip_header s = .ok (h, rest)) :
    ∃ (cm flg m0 m1 m2 m3 xfl osv : Nat)
      (exseg nameseg comseg c16seg : List Nat),
      s = 31 :: 139 :: cm :: flg :: m0 :: m1 :: m2 :: m3 :: xfl :: osv
          :: (exseg ++ (nameseg ++ (comseg ++ (c16seg ++ rest))))
      ∧ h.cm = some (Int.ofNat cm)
      ∧ h.flg = some (Int.ofNat flg)
      ∧ h.mtime = some (Int.ofNat (m0 + 256 * m1 + 65536 * m2
          + 16777216 * m3))
      ∧ h.xfl = some (Int.ofNat xfl)
      ∧ h.os = some (Int.ofNat osv)
      ∧ (if flg &&& FEXTRA ≠ 0
          then ∃ x0 x1 e, h.exfield = some e ∧ e.length = x0 + 256 * x1
            ∧ exseg = x0 :: x1 :: e
          else h.exfield = none ∧ exseg = [])
      ∧ (if flg &&& FNAME ≠ 0
          then ∃ nm, h.name = some nm ∧ (∀ c ∈ nm, c ≠ 0)
            ∧ nameseg = nm ++ [0]
          else h.name = none ∧ nameseg = [])
      ∧ (if flg &&& FCOMMENT ≠ 0
          then ∃ cv, h.comment = some cv ∧ (∀ c ∈ cv, c ≠ 0)
            ∧ comseg = cv ++ [0]
          else h.comment = none ∧ comseg = [])
      ∧ (if flg &&& FHCRC ≠ 0
          then ∃ c0 c1, h.crc16 = some (Int.ofNat (c0 + 256 * c1))
            ∧ c16seg = [c0, c1]
          else h.crc16 = none ∧ c16seg = []) := by
  unfold read_gzip_header at hread
  cases hp : saferead s 10 with
  | error e => rw [hp, errBind] at hread; exact absurd hread (by simp)
  | ok p =>
    rw [hp, okBind] at hread
    obtain ⟨buf, s1⟩ := p
    obtain ⟨hs, hbl⟩ := saferead_inv s 10 buf s1 (by rw [hp])
    dsimp only at hread
    rcases buf with _ | ⟨b0, buf⟩
    · simp at hbl
    rcases buf with _ | ⟨b1, buf⟩
    · simp at hbl
    rcases buf with _ | ⟨b2, buf⟩
    · simp at hbl
    rcases buf with _ | ⟨b3, buf⟩
    · simp at hbl
    rcases buf with _ | ⟨b4, buf⟩
    · simp at hbl
    rcases buf with _ | ⟨b5, buf⟩
    · simp at hbl
    rcases buf with _ | ⟨b6, buf⟩
    · simp at hbl
    rcases buf with _ | ⟨b7, buf⟩
    · simp at hbl
    rcases buf with _ | ⟨b8, buf⟩
    · simp at hbl
    rcases buf with _ | ⟨b9, buf⟩
    · simp at hbl
    have hbe : buf = [] := by
      simp only [List.length_cons] at hbl
      exact List.length_eq_zero.mp (by omega)
    subst hbe
    rw [show ([b0, b1, b2, b3, b4, b5, b6, b7, b8, b9] : List Nat).take 2
        = [b0, b1] from rfl] at hread
    rw [show ([b0, b1, b2, b3, b4, b5, b6, b7, b8, b9] : List Nat).getD 2 0
        = b2 from rfl] at hread
    rw [show ([b0, b1, b2, b3, b4, b5, b6, b7, b8, b9] : List Nat).getD 3 0
        = b3 from rfl] at hread
    rw [show ([b0, b1, b2, b3, b4, b5, b6, b7, b8, b9] : List Nat).getD 4 0
        = b4 from rfl] at hread
    rw [show ([b0, b1, b2, b3, b4, b5, b6, b7, b8, b9] : List Nat).getD 5 0
        = b5 from rfl] at hread
    rw [show ([b0, b1, b2, b3, b4, b5, b6, b7, b8, b9] : List Nat).getD 6 0
        = b6 from rfl] at hread
    rw [show ([b0, b1, b2, b3, b4, b5, b6, b7, b8, b9] : List Nat).getD 7 0
        = b7 from rfl] at hread
    rw [show ([b0, b1, b2, b3, b4, b5, b6, b7, b8, b9] : List Nat).getD 8 0
        = b8 from rfl] at hread
    rw [show ([b0, b1, b2, b3, b4, b5, b6, b7, b8, b9] : List Nat).getD 9 0
        = b9 from rfl] at hread
    by_cases hm : ([b0, b1] : List Nat) ≠ GZIP_MAGIC
    · rw [if_pos hm] at hread
      exact absurd hread (by simp)
    · rw [if_neg hm] at hread
      have hmagic : b0 = 31 ∧ b1 = 139 := by
        rw [not_not] at hm
        simp only [GZIP_MAGIC, List.cons.injEq, and_true] at hm
        exact hm
      obtain ⟨rfl, rfl⟩ := hmagic
      cases hr1 : readExfieldSeg b3 s1 with
      | error e => rw [hr1, errBind] at hread; exact absurd hread (by simp)
      | ok r1 =>
        rw [hr1, okBind] at hread
        obtain ⟨seg1, hseq1, hfact1⟩ := readExfieldSeg_inv b3 s1 r1 hr1
        cases hr2 : readCstrSeg b3 FNAME r1.2 with
        | error e => rw [hr2, errBind] at hread; exact absurd hread (by simp)
        | ok r2 =>
          rw [hr2, okBind] at hread
          obtain ⟨seg2, hseq2, hfact2⟩ := readCstrSeg_inv b3 FNAME r1.2 r2 hr2
          cases hr3 : readCstrSeg b3 FCOMMENT r2.2 with
          | error e => rw [hr3, errBind] at hread; exact absurd hread (by simp)
          | ok r3 =>
            rw [hr3, okBind] at hread
            obtain ⟨seg3, hseq3, hfact3⟩ :=
              readCstrSeg_inv b3 FCOMMENT r2.2 r3 hr3
            cases hr4 : readCrc16Seg b3 r3.2 with
            | error e =>
              rw [hr4, errBind] at hread
              exact absurd hread (by simp)
            | ok r4 =>
              rw [hr4, okBind] at hread
              obtain ⟨seg4, hseq4, hfact4⟩ := readCrc16Seg_inv b3 r3.2 r4 hr4
              injection hread with hread
              obtain ⟨hdict, hrest⟩ := Prod.mk.injEq .. |>.mp hread
              subst hrest
              subst hdict
              refine ⟨b2, b3, b4, b5, b6, b7, b8, b9,
                seg1, seg2, seg3, seg4, ?_, rfl, rfl, rfl, rfl, rfl,
                hfact1, hfact2, hfact3, hfact4⟩
              rw [hs, hseq1, hseq2, hseq3, hseq4]
              simp

/-! ## Round-trip infrastructure: rebuilding the binary header -/

/-- getKey of a present key. -/
theorem getKey_some {α : Type} (v : α) : getKey (some v) = .ok v := rfl

/-- packU8 of a byte value. -/
theorem packU8_byte (n : Nat) (hn : n < 256) :
    packU8 (Int.ofNat n) = .ok [n] := by
  rw [packU8, if_pos (by simp only [Int.ofNat_eq_coe]; omega)]
  rfl

/-- from_i16 rebuilds the two little-endian bytes. -/
theorem from_i16_bytes (c0 c1 : Nat) (h0 : c0 < 256) (h1 : c1 < 256) :
    from_i16 (Int.ofNat (c0 + 256 * c1)) = .ok [c0, c1] := by
  rw [from_i16, if_pos (by simp only [Int.ofNat_eq_coe]; omega)]
  rw [show (Int.ofNat (c0 + 256 * c1)).toNat = c0 + 256 * c1 from rfl]
  rw [show (c0 + 256 * c1) % 256 = c0 from by omega,
    show (c0 + 256 * c1) / 256 = c1 from by omega]

/-- from_i32 rebuilds the four little-endian bytes. -/
theorem from_i32_bytes (m0 m1 m2 m3 : Nat) (h0 : m0 < 256) (h1 : m1 < 256)
    (h2 : m2 < 256) (h3 : m3 < 256) :
    from_i32 (Int.ofNat (m0 + 256 * m1 + 65536 * m2 + 16777216 * m3))
      = .ok [m0, m1, m2, m3] := by
  rw [from_i32, if_pos (by simp only [Int.ofNat_eq_coe]; omega)]
  rw [show (Int.ofNat (m0 + 256 * m1 + 65536 * m2 + 16777216 * m3)).toNat
      = m0 + 256 * m1 + 65536 * m2 + 16777216 * m3 from rfl]
  rw [show (m0 + 256 * m1 + 65536 * m2 + 16777216 * m3) % 256 = m0 from
      by omega,
    show (m0 + 256 * m1 + 65536 * m2 + 16777216 * m3) / 256 % 256 = m1 from
      by omega,
    show (m0 + 256 * m1 + 65536 * m2 + 16777216 * m3) / 65536 % 256 = m2 from
      by omega,
    show (m0 + 256 * m1 + 65536 * m2 + 16777216 * m3) / 16777216 % 256 = m3
      from by omega]

/-- flagSet on a Nat-valued flag byte. -/
theorem flagSet_ofNat_iff (n bit : Nat) :
    flagSet (Int.ofNat n) bit = true ↔ n &&& bit ≠ 0 := by
  simp [flagSet]

/-- latin-1 encoding succeeds on byte-ranged code points. -/
theorem encodeLatin1_ok (nm : List Nat) (h : ∀ c ∈ nm, c ≤ 255) :
    encodeLatin1 nm = .ok nm := by
  rw [encodeLatin1, if_pos]
  rw [List.all_eq_true]
  intro c hc
  simpa using h c hc

/-- The EXTRA segment writer reproduces the read segment. -/
theorem writeExfieldSeg_eq (flg : Nat) (o : Option (List Nat))
    (seg : List Nat)
    (hfact : if flg &&& FEXTRA ≠ 0
        then ∃ x0 x1 e, o = some e ∧ e.length = x0 + 256 * x1
          ∧ seg = x0 :: x1 :: e
        else o = none ∧ seg = [])
    (hb : ∀ b ∈ seg, b < 256) :
    writeExfieldSeg (Int.ofNat flg) o = .ok seg := by
  rw [writeExfieldSeg]
  by_cases hf : flg &&& FEXTRA ≠ 0
  · rw [if_pos ((flagSet_ofNat_iff flg FEXTRA).mpr hf)]
    rw [if_pos hf] at hfact
    obtain ⟨x0, x1, e, rfl, hlen, rfl⟩ := hfact
    rw [getKey_some, okBind]
    rw [hlen, from_i16_bytes x0 x1 (hb x0 (by simp)) (hb x1 (by simp)),
      okBind]
    rfl
  · rw [if_neg (fun hh => hf ((flagSet_ofNat_iff flg FEXTRA).mp hh))]
    rw [if_neg hf] at hfact
    obtain ⟨rfl, rfl⟩ := hfact
    rfl

/-- The NUL-terminated string segment writer reproduces the read
segment. -/
theorem writeStrSeg_eq (flg bit : Nat) (o : Option (List Nat))
    (seg : List Nat)
    (hfact : if flg &&& bit ≠ 0
        then ∃ nm, o = some nm ∧ (∀ c ∈ nm, c ≠ 0) ∧ seg = nm ++ [0]
        else o = none ∧ seg = [])
    (hb : ∀ b ∈ seg, b < 256) :
    writeStrSeg (Int.ofNat flg) bit o = .ok seg := by
  rw [writeStrSeg]
  by_cases hf : flg &&& bit ≠ 0
  · rw [if_pos ((flagSet_ofNat_iff flg bit).mpr hf)]
    rw [if_pos hf] at hfact
    obtain ⟨nm, rfl, _, rfl⟩ := hfact
    rw [getKey_some, okBind]
    rw [encodeLatin1_ok nm
      (fun c hc => by
        have := hb c (List.mem_append_left _ hc)
        omega), okBind]
    rfl
  · rw [if_neg (fun hh => hf ((flagSet_ofNat_iff flg bit).mp hh))]
    rw [if_neg hf] at hfact
    obtain ⟨rfl, rfl⟩ := hfact
    rfl

/-- The header CRC16 segment writer reproduces the read segment. -/
theorem writeCrc16Seg_eq (flg : Nat) (o : Option Int) (seg : List Nat)
    (hfact : if flg &&& FHCRC ≠ 0
        then ∃ c0 c1, o = some (Int.ofNat (c0 + 256 * c1)) ∧ seg = [c0, c1]
        else o = none ∧ seg = [])
    (hb : ∀ b ∈ seg, b < 256) :
    writeCrc16Seg (Int.ofNat flg) o = .ok seg := by
  rw [writeCrc16Seg]
  by_cases hf : flg &&& FHCRC ≠ 0
  · rw [if_pos ((flagSet_ofNat_iff flg FHCRC).mpr hf)]
    rw [if_pos hf] at hfact
    obtain ⟨c0, c1, rfl, rfl⟩ := hfact
    rw [getKey_some, okBind]
    exact from_i16_bytes c0 c1 (hb c0 (by simp)) (hb c1 (by simp))
  · rw [if_neg (fun hh => hf ((flagSet_ofNat_iff flg FHCRC).mp hh))]
    rw [if_neg hf] at hfact
    obtain ⟨rfl, rfl⟩ := hfact
    rfl

/-- create_gzip_header rebuilds exactly the bytes that
read_gzip_header consumed, given the inversion facts. -/
theorem create_gzip_header_eq (dic : HeaderDict)
    (cm flg m0 m1 m2 m3 xfl osv : Nat)
    (exseg nameseg comseg c16seg : List Nat)
    (hcm : dic.cm = some (Int.ofNat cm))
    (hflg : dic.flg = some (Int.ofNat flg))
    (hmtime : dic.mtime = some (Int.ofNat (m0 + 256 * m1 + 65536 * m2
        + 16777216 * m3)))
    (hxfl : dic.xfl = some (Int.ofNat xfl))
    (hos : dic.os = some (Int.ofNat osv))
    (hcm8 : cm < 256) (hflg8 : flg < 256)
    (hm0 : m0 < 256) (hm1 : m1 < 256) (hm2 : m2 < 256) (hm3 : m3 < 256)
    (hxfl8 : xfl < 256) (hosv8 : osv < 256)
    (hfact1 : if flg &&& FEXTRA ≠ 0
        then ∃ x0 x1 e, dic.exfield = some e ∧ e.length = x0 + 256 * x1
          ∧ exseg = x0 :: x1 :: e
        else dic.exfield = none ∧ exseg = [])
    (hfact2 : if flg &&& FNAME ≠ 0
        then ∃ nm, dic.name = some nm ∧ (∀ c ∈ nm, c ≠ 0)
          ∧ nameseg = nm ++ [0]
        else dic.name = none ∧ nameseg = [])
    (hfact3 : if flg &&& FCOMMENT ≠ 0
        then ∃ cv, dic.comment = some cv ∧ (∀ c ∈ cv, c ≠ 0)
          ∧ comseg = cv ++ [0]
        else dic.comment = none ∧ comseg = [])
    (hfact4 : if flg &&& FHCRC ≠ 0
        then ∃ c0 c1, dic.crc16 = some (Int.ofNat (c0 + 256 * c1))
          ∧ c16seg = [c0, c1]
        else dic.crc16 = none ∧ c16seg = [])
    (hb1 : ∀ b ∈ exseg, b < 256) (hb2 : ∀ b ∈ nameseg, b < 256)
    (hb3 : ∀ b ∈ comseg, b < 256) (hb4 : ∀ b ∈ c16seg, b < 256) :
    create_gzip_header dic
      = .ok (31 :: 139 :: cm :: flg :: m0 :: m1 :: m2 :: m3 :: xfl :: osv
          :: (exseg ++ (nameseg ++ (comseg ++ c16seg)))) := by
  rw [create_gzip_header]
  rw [hcm, hflg, hmtime, hxfl, hos]
  simp only [getKey_some, okBind]
  rw [packU8_byte cm hcm8]
  simp only [okBind]
  rw [packU8_byte flg hflg8]
  simp only [okBind]
  rw [from_i32_bytes m0 m1 m2 m3 hm0 hm1 hm2 hm3]
  simp only [okBind]
  rw [packU8_byte xfl hxfl8]
  simp only [okBind]
  rw [packU8_byte osv hosv8]
  simp only [okBind]
  rw [writeExfieldSeg_eq flg dic.exfield exseg hfact1 hb1]
  simp only [okBind]
  rw [writeStrSeg_eq flg FNAME dic.name nameseg hfact2 hb2]
  simp only [okBind]
  rw [writeStrSeg_eq flg FCOMMENT dic.comment comseg hfact3 hb3]
  simp only [okBind]
  rw [writeCrc16Seg_eq flg dic.crc16 c16seg hfact4 hb4]
  simp only [okBind]
  simp [GZIP_MAGIC]

/-- Python l[:-8] on a list ending in an 8-byte tail. -/
theorem allButLast8_eight (front w : List Nat) (hw : w.length = 8) :
    allButLast8 (front ++ w) = front := by
  rw [allButLast8]
  simp only [List.length_append, hw]
  rw [show front.length + 8 - 8 = front.length from by omega]
  exact List.take_left front w

/-- Python l[-8:-4] on a list ending in an explicit 8-byte tail. -/
theorem sliceM8M4_eight (front : List Nat)
    (w0 w1 w2 w3 w4 w5 w6 w7 : Nat) :
    sliceM8M4 (front ++ [w0, w1, w2, w3, w4, w5, w6, w7])
      = [w0, w1, w2, w3] := by
  rw [sliceM8M4]
  have hL : (front ++ [w0, w1, w2, w3, w4, w5, w6, w7]).length
      = front.length + 8 := by simp
  rw [hL, show front.length + 8 - 8 = front.length from by omega,
    show front.length + 8 - 4 - front.length = 4 from by omega,
    List.drop_left]
  rfl

/-- Python l[-4:] on a list ending in an explicit 8-byte tail. -/
theorem last4_eight (front : List Nat) (w0 w1 w2 w3 w4 w5 w6 w7 : Nat) :
    last4 (front ++ [w0, w1, w2, w3, w4, w5, w6, w7]) = [w4, w5, w6, w7] := by
  rw [last4]
  have hL : (front ++ [w0, w1, w2, w3, w4, w5, w6, w7]).length
      = front.length + 8 := by simp
  rw [hL, show front.length + 8 - 4 = front.length + 4 from by omega,
    ← List.drop_drop, List.drop_left]
  rfl

/-! ## Round-trip infrastructure: consuming the produced header lines -/

/-- Line-format side conditions for a nonnegative decimal value. -/
theorem pyIntStr_clean (n : Nat) :
    pyIntStr (Int.ofNat n) ≠ []
      ∧ (∀ c ∈ pyIntStr (Int.ofNat n), c ≠ 9 ∧ c ≠ 10)
      ∧ ∀ c, (pyIntStr (Int.ofNat n)).getLast? = some c
          → isSpaceByte c = false := by
  rw [pyIntStr_ofNat]
  exact natToDec_clean n

/-- A key/value line is newline-terminated with a newline-free body. -/
theorem kvLine_good (key : String) (val : List Nat)
    (hkey : ∀ x ∈ s2b key, x ≠ 10) (hval : ∀ x ∈ val, x ≠ 10) :
    ∃ body, kvLine key val = body ++ [10] ∧ ∀ x ∈ body, x ≠ 10 := by
  refine ⟨s2b key ++ 9 :: val, by simp [kvLine], ?_⟩
  intro x hx
  rcases List.mem_append.mp hx with hx | hx
  · exact hkey x hx
  · rcases List.mem_cons.mp hx with rfl | hx
    · decide
    · exact hval x hx

/-- Consuming the optional cm line. -/
theorem rth_cm (o : Option Int) (dic : HeaderDict) (ls : List (List Nat))
    (ho : o = none ∨ ∃ n, o = some (Int.ofNat n))
    (hnone : dic.cm = none) :
    read_text_header (optIntLines "cm" o ++ ls) dic
      = read_text_header ls { dic with cm := o } := by
  rcases ho with rfl | ⟨n, rfl⟩
  · simp only [optIntLines, List.nil_append]
    congr 1
    cases dic
    dsimp only at hnone
    rw [hnone]
  · simp only [optIntLines, List.cons_append]
    exact read_text_header_cons _ ls dic _
      (rstrip_kvLine_ne_dashes "cm" _ (pyIntStr_clean n).1
        (pyIntStr_clean n).2.1 (pyIntStr_clean n).2.2)
      (parseHeaderLine_cm dic n)

/-- Consuming the optional flg line. -/
theorem rth_flg (o : Option Int) (dic : HeaderDict) (ls : List (List Nat))
    (ho : o = none ∨ ∃ n, o = some (Int.ofNat n))
    (hnone : dic.flg = none) :
    read_text_header (optIntLines "flg" o ++ ls) dic
      = read_text_header ls { dic with flg := o } := by
  rcases ho with rfl | ⟨n, rfl⟩
  · simp only [optIntLines, List.nil_append]
    congr 1
    cases dic
    dsimp only at hnone
    rw [hnone]
  · simp only [optIntLines, List.cons_append]
    exact read_text_header_cons _ ls dic _
      (rstrip_kvLine_ne_dashes "flg" _ (pyIntStr_clean n).1
        (pyIntStr_clean n).2.1 (pyIntStr_clean n).2.2)
      (parseHeaderLine_flg dic n)

/-- Consuming the optional mtime line. -/
theorem rth_mtime (o : Option Int) (dic : HeaderDict) (ls : List (List Nat))
    (ho : o = none ∨ ∃ n, o = some (Int.ofNat n))
    (hnone : dic.mtime = none) :
    read_text_header (optIntLines "mtime" o ++ ls) dic
      = read_text_header ls { dic with mtime := o } := by
  rcases ho with rfl | ⟨n, rfl⟩
  · simp only [optIntLines, List.nil_append]
    congr 1
    cases dic
    dsimp only at hnone
    rw [hnone]
  · simp only [optIntLines, List.cons_append]
    exact read_text_header_cons _ ls dic _
      (rstrip_kvLine_ne_dashes "mtime" _ (pyIntStr_clean n).1
        (pyIntStr_clean n).2.1 (pyIntStr_clean n).2.2)
      (parseHeaderLine_mtime dic n)

/-- Consuming the optional xfl line. -/
theorem rth_xfl (o : Option Int) (dic : HeaderDict) (ls : List (List Nat))
    (ho : o = none ∨ ∃ n, o = some (Int.ofNat n))
    (hnone : dic.xfl = none) :
    read_text_header (optIntLines "xfl" o ++ ls) dic
      = read_text_header ls { dic with xfl := o } := by
  rcases ho with rfl | ⟨n, rfl⟩
  · simp only [optIntLines, List.nil_append]
    congr 1
    cases dic
    dsimp only at hnone
    rw [hnone]
  · simp only [optIntLines, List.cons_append]
    exact read_text_header_cons _ ls dic _
      (rstrip_kvLine_ne_dashes "xfl" _ (pyIntStr_clean n).1
        (pyIntStr_clean n).2.1 (pyIntStr_clean n).2.2)
      (parseHeaderLine_xfl dic n)

/-- Consuming the optional os line. -/
theorem rth_os (o : Option Int) (dic : HeaderDict) (ls : List (List Nat))
    (ho : o = none ∨ ∃ n, o = some (Int.ofNat n))
    (hnone : dic.os = none) :
    read_text_header (optIntLines "os" o ++ ls) dic
      = read_text_header ls { dic with os := o } := by
  rcases ho with rfl | ⟨n, rfl⟩
  · simp only [optIntLines, List.nil_append]
    congr 1
    cases dic
    dsimp only at hnone
    rw [hnone]
  · simp only [optIntLines, List.cons_append]
    exact read_text_header_cons _ ls dic _
      (rstrip_kvLine_ne_dashes "os" _ (pyIntStr_clean n).1
        (pyIntStr_clean n).2.1 (pyIntStr_clean n).2.2)
      (parseHeaderLine_os dic n)

/-- Consuming the optional crc16 line. -/
theorem rth_crc16 (o : Option Int) (dic : HeaderDict) (ls : List (List Nat))
    (ho : o = none ∨ ∃ n, o = some (Int.ofNat n))
    (hnone : dic.crc16 = none) :
    read_text_header (optIntLines "crc16" o ++ ls) dic
      = read_text_header ls { dic with crc16 := o } := by
  rcases ho with rfl | ⟨n, rfl⟩
  · simp only [optIntLines, List.nil_append]
    congr 1
    cases dic
    dsimp only at hnone
    rw [hnone]
  · simp only [optIntLines, List.cons_append]
    exact read_text_header_cons _ ls dic _
      (rstrip_kvLine_ne_dashes "crc16" _ (pyIntStr_clean n).1
        (pyIntStr_clean n).2.1 (pyIntStr_clean n).2.2)
      (parseHeaderLine_crc16 dic n)

/-- Consuming the optional name line. -/
theorem rth_name (o : Option (List Nat)) (dic : HeaderDict)
    (ls : List (List Nat))
    (ho : ∀ nm, o = some nm → (∀ c ∈ nm, c ≤ 255) ∧ textSafe nm = true)
    (hnone : dic.name = none) :
    read_text_header (optStrLines "name" o ++ ls) dic
      = read_text_header ls { dic with name := o } := by
  rcases o with _ | nm
  · simp only [optStrLines, List.nil_append]
    congr 1
    cases dic
    dsimp only at hnone
    rw [hnone]
  · obtain ⟨hcp, hsafe⟩ := ho nm rfl
    obtain ⟨hne, hclean, hlast⟩ := textSafe_elim nm hsafe
    simp only [optStrLines, List.cons_append]
    exact read_text_header_cons _ ls dic _
      (rstrip_kvLine_ne_dashes "name" _ (utf8Encode_ne_nil nm hne)
        (utf8Encode_clean nm hcp hclean)
        (utf8Encode_getLast nm hcp hne hlast))
      (parseHeaderLine_name dic nm hcp hsafe)

/-- Consuming the optional comment line. -/
theorem rth_comment (o : Option (List Nat)) (dic : HeaderDict)
    (ls : List (List Nat))
    (ho : ∀ cv, o = some cv → (∀ c ∈ cv, c ≤ 255) ∧ textSafe cv = true)
    (hnone : dic.comment = none) :
    read_text_header (optStrLines "comment" o ++ ls) dic
      = read_text_header ls { dic with comment := o } := by
  rcases o with _ | cv
  · simp only [optStrLines, List.nil_append]
    congr 1
    cases dic
    dsimp only at hnone
    rw [hnone]
  · obtain ⟨hcp, hsafe⟩ := ho cv rfl
    obtain ⟨hne, hclean, hlast⟩ := textSafe_elim cv hsafe
    simp only [optStrLines, List.cons_append]
    exact read_text_header_cons _ ls dic _
      (rstrip_kvLine_ne_dashes "comment" _ (utf8Encode_ne_nil cv hne)
        (utf8Encode_clean cv hcp hclean)
        (utf8Encode_getLast cv hcp hne hlast))
      (parseHeaderLine_comment dic cv hcp hsafe)

/-- Consuming the optional exfield line. -/
theorem rth_exfield (o : Option (List Nat)) (dic : HeaderDict)
    (ls : List (List Nat))
    (ho : ∀ e, o = some e → (∀ b ∈ e, b < 256) ∧ e ≠ [])
    (hnone : dic.exfield = none) :
    read_text_header (optB64Lines "exfield" o ++ ls) dic
      = read_text_header ls { dic with exfield := o } := by
  rcases o with _ | e
  · simp only [optB64Lines, List.nil_append]
    congr 1
    cases dic
    dsimp only at hnone
    rw [hnone]
  · obtain ⟨hb, hne⟩ := ho e rfl
    simp only [optB64Lines, List.cons_append]
    exact read_text_header_cons _ ls dic _
      (rstrip_kvLine_ne_dashes "exfield" _ (encodeB64_ne_nil e hne)
        (encodeB64_val_clean e).1 (encodeB64_val_clean e).2)
      (parseHeaderLine_exfield dic e hb hne)

/-- read_text_header recovers the exact dict whose lines were produced,
then stops at the delimiter. -/
theorem read_text_header_full (dic : HeaderDict) (ls : List (List Nat))
    (h1 : ∃ n, dic.cm = some (Int.ofNat n))
    (h2 : ∃ n, dic.flg = some (Int.ofNat n))
    (h3 : ∃ n, dic.mtime = some (Int.ofNat n))
    (h4 : ∃ n, dic.xfl = some (Int.ofNat n))
    (h5 : ∃ n, dic.os = some (Int.ofNat n))
    (h6 : dic.crc16 = none ∨ ∃ n, dic.crc16 = some (Int.ofNat n))
    (h7 : ∀ e, dic.exfield = some e → (∀ b ∈ e, b < 256) ∧ e ≠ [])
    (h8 : ∀ nm, dic.name = some nm
        → (∀ c ∈ nm, c ≤ 255) ∧ textSafe nm = true)
    (h9 : ∀ cv, dic.comment = some cv
        → (∀ c ∈ cv, c ≤ 255) ∧ textSafe cv = true) :
    read_text_header (headerLines dic ++ (s2b "----\n" :: ls)) emptyHeader
      = .ok (dic, ls) := by
  obtain ⟨n1, e1⟩ := h1
  obtain ⟨n2, e2⟩ := h2
  obtain ⟨n3, e3⟩ := h3
  obtain ⟨n4, e4⟩ := h4
  obtain ⟨n5, e5⟩ := h5
  cases dic
  dsimp only at e1 e2 e3 e4 e5 h6 h7 h8 h9
  subst e1
  subst e2
  subst e3
  subst e4
  subst e5
  rw [headerLines]
  simp only [List.append_assoc]
  rw [rth_cm _ _ _ (Or.inr ⟨n1, rfl⟩) rfl]
  rw [rth_flg _ _ _ (Or.inr ⟨n2, rfl⟩) rfl]
  rw [rth_mtime _ _ _ (Or.inr ⟨n3, rfl⟩) rfl]
  rw [rth_xfl _ _ _ (Or.inr ⟨n4, rfl⟩) rfl]
  rw [rth_os _ _ _ (Or.inr ⟨n5, rfl⟩) rfl]
  rw [rth_exfield _ _ _ h7 rfl]
  rw [rth_name _ _ _ h8 rfl]
  rw [rth_comment _ _ _ h9 rfl]
  rw [rth_crc16 _ _ _ h6 rfl]
  rw [read_text_header_dashes]

/-- Every produced header line is newline-terminated with a newline-free
body. -/
theorem headerLines_good (dic : HeaderDict)
    (h1 : ∃ n, dic.cm = some (Int.ofNat n))
    (h2 : ∃ n, dic.flg = some (Int.ofNat n))
    (h3 : ∃ n, dic.mtime = some (Int.ofNat n))
    (h4 : ∃ n, dic.xfl = some (Int.ofNat n))
    (h5 : ∃ n, dic.os = some (Int.ofNat n))
    (h6 : dic.crc16 = none ∨ ∃ n, dic.crc16 = some (Int.ofNat n))
    (h8 : ∀ nm, dic.name = some nm
        → (∀ c ∈ nm, c ≤ 255) ∧ textSafe nm = true)
    (h9 : ∀ cv, dic.comment = some cv
        → (∀ c ∈ cv, c ≤ 255) ∧ textSafe cv = true) :
    ∀ l ∈ headerLines dic, ∃ body, l = body ++ [10] ∧ ∀ x ∈ body, x ≠ 10 := by
  intro l hl
  obtain ⟨n1, e1⟩ := h1
  obtain ⟨n2, e2⟩ := h2
  obtain ⟨n3, e3⟩ := h3
  obtain ⟨n4, e4⟩ := h4
  obtain ⟨n5, e5⟩ := h5
  rw [headerLines, e1, e2, e3, e4, e5] at hl
  simp only [List.mem_append] at hl
  rcases hl with ((((((((hl | hl) | hl) | hl) | hl) | hl) | hl) | hl) | hl)
  · simp only [optIntLines, List.mem_singleton] at hl
    subst hl
    exact kvLine_good "cm" _ (by decide)
      (fun c hc => ((pyIntStr_clean n1).2.1 c hc).2)
  · simp only [optIntLines, List.mem_singleton] at hl
    subst hl
    exact kvLine_good "flg" _ (by decide)
      (fun c hc => ((pyIntStr_clean n2).2.1 c hc).2)
  · simp only [optIntLines, List.mem_singleton] at hl
    subst hl
    exact kvLine_good "mtime" _ (by decide)
      (fun c hc => ((pyIntStr_clean n3).2.1 c hc).2)
  · simp only [optIntLines, List.mem_singleton] at hl
    subst hl
    exact kvLine_good "xfl" _ (by decide)
      (fun c hc => ((pyIntStr_clean n4).2.1 c hc).2)
  · simp only [optIntLines, List.mem_singleton] at hl
    subst hl
    exact kvLine_good "os" _ (by decide)
      (fun c hc => ((pyIntStr_clean n5).2.1 c hc).2)
  · rcases hE : dic.exfield with _ | e
    · rw [hE] at hl
      simp [optB64Lines] at hl
    · rw [hE] at hl
      simp only [optB64Lines, List.mem_singleton] at hl
      subst hl
      exact kvLine_good "exfield" _ (by decide)
        (fun c hc => (encodeB64_clean e c hc).2.2.1)
  · rcases hN : dic.name with _ | nm
    · rw [hN] at hl
      simp [optStrLines] at hl
    · rw [hN] at hl
      simp only [optStrLines, List.mem_singleton] at hl
      subst hl
      obtain ⟨hcp, hsafe⟩ := h8 nm hN
      obtain ⟨_, hclean, _⟩ := textSafe_elim nm hsafe
      exact kvLine_good "name" _ (by decide)
        (fun b hb => (utf8Encode_clean nm hcp hclean b hb).2)
  · rcases hC : dic.comment with _ | cv
    · rw [hC] at hl
      simp [optStrLines] at hl
    · rw [hC] at hl
      simp only [optStrLines, List.mem_singleton] at hl
      subst hl
      obtain ⟨hcp, hsafe⟩ := h9 cv hC
      obtain ⟨_, hclean, _⟩ := textSafe_elim cv hsafe
      exact kvLine_good "comment" _ (by decide)
        (fun b hb => (utf8Encode_clean cv hcp hclean b hb).2)
  · rcases h6 with h6 | ⟨n6, h6⟩
    · rw [h6] at hl
      simp [optIntLines] at hl
    · rw [h6] at hl
      simp only [optIntLines, List.mem_singleton] at hl
      subst hl
      exact kvLine_good "crc16" _ (by decide)
        (fun c hc => ((pyIntStr_clean n6).2.1 c hc).2)

/-! ## Claim C1 — the binary → text → binary round trip -/

/-- C1 (amended): for every byte stream accepted by read_gzip_header
whose header passes validation, whose region after the header holds the
8 footer bytes, and whose optional string fields survive the text format
(name and comment nonempty, free of tab and newline, not ending in
whitespace; exfield nonempty), converting to text and back yields
exactly the original bytes. -/
theorem to_text_to_gzip_roundtrip (s : List Nat) (h : HeaderDict)
    (rest : List Nat)
    (hbytes : ∀ b ∈ s, b < 256)
    (hread : read_gzip_header s = .ok (h, rest))
    (hassert : assert_header h = true)
    (hrest : 8 ≤ rest.length)
    (hname : ∀ nm, h.name = some nm → textSafe nm = true)
    (hcomment : ∀ cv, h.comment = some cv → textSafe cv = true)
    (hexf : ∀ e, h.exfield = some e → e ≠ []) :
    ∃ t, to_text s = .ok t ∧ to_gzip t = .ok s := by
  obtain ⟨cm, flg, m0, m1, m2, m3, xfl, osv, exseg, nameseg, comseg, c16seg,
    hsEq, hcm, hflg, hmtime, hxfl, hos, hfact1, hfact2, hfact3, hfact4⟩ :=
    read_gzip_header_inv s h rest hread
  have hrb : ∀ b ∈ rest, b < 256 := by
    intro b hb
    exact hbytes b (by rw [hsEq]; simp [hb])
  have hexb : ∀ b ∈ exseg, b < 256 := by
    intro b hb
    exact hbytes b (by rw [hsEq]; simp [hb])
  have hnmb : ∀ b ∈ nameseg, b < 256 := by
    intro b hb
    exact hbytes b (by rw [hsEq]; simp [hb])
  have hcvb : ∀ b ∈ comseg, b < 256 := by
    intro b hb
    exact hbytes b (by rw [hsEq]; simp [hb])
  have hc16b : ∀ b ∈ c16seg, b < 256 := by
    intro b hb
    exact hbytes b (by rw [hsEq]; simp [hb])
  have hcm8 : cm < 256 := hbytes cm (by rw [hsEq]; simp)
  have hflg8 : flg < 256 := hbytes flg (by rw [hsEq]; simp)
  have hm0b : m0 < 256 := hbytes m0 (by rw [hsEq]; simp)
  have hm1b : m1 < 256 := hbytes m1 (by rw [hsEq]; simp)
  have hm2b : m2 < 256 := hbytes m2 (by rw [hsEq]; simp)
  have hm3b : m3 < 256 := hbytes m3 (by rw [hsEq]; simp)
  have hxfl8 : xfl < 256 := hbytes xfl (by rw [hsEq]; simp)
  have hosv8 : osv < 256 := hbytes osv (by rw [hsEq]; simp)
  have hcrcOr : h.crc16 = none ∨ ∃ n, h.crc16 = some (Int.ofNat n) := by
    by_cases hf : flg &&& FHCRC ≠ 0
    · have h4 := hfact4
      rw [if_pos hf] at h4
      obtain ⟨c0, c1, hcc, _⟩ := h4
      exact Or.inr ⟨_, hcc⟩
    · have h4 := hfact4
      rw [if_neg hf] at h4
      exact Or.inl h4.1
  have hex' : ∀ e, h.exfield = some e → (∀ b ∈ e, b < 256) ∧ e ≠ [] := by
    intro e he
    refine ⟨?_, hexf e he⟩
    by_cases hf : flg &&& FEXTRA ≠ 0
    · have h1' := hfact1
      rw [if_pos hf] at h1'
      obtain ⟨x0, x1, e', he', _, hseg⟩ := h1'
      rw [he] at he'
      injection he' with hee
      subst hee
      intro b hb
      exact hexb b (by rw [hseg]; simp [hb])
    · have h1' := hfact1
      rw [if_neg hf] at h1'
      rw [h1'.1] at he
      exact absurd he (by simp)
  have hnm' : ∀ nm, h.name = some nm
      → (∀ c ∈ nm, c ≤ 255) ∧ textSafe nm = true := by
    intro nm hn
    refine ⟨?_, hname nm hn⟩
    by_cases hf : flg &&& FNAME ≠ 0
    · have h2' := hfact2
      rw [if_pos hf] at h2'
      obtain ⟨nm', hn', _, hseg⟩ := h2'
      rw [hn] at hn'
      injection hn' with hee
      subst hee
      intro c hc
      have := hnmb c (by rw [hseg]; exact List.mem_append_left _ hc)
      omega
    · have h2' := hfact2
      rw [if_neg hf] at h2'
      rw [h2'.1] at hn
      exact absurd hn (by simp)
  have hcv' : ∀ cv, h.comment = some cv
      → (∀ c ∈ cv, c ≤ 255) ∧ textSafe cv = true := by
    intro cv hn
    refine ⟨?_, hcomment cv hn⟩
    by_cases hf : flg &&& FCOMMENT ≠ 0
    · have h3' := hfact3
      rw [if_pos hf] at h3'
      obtain ⟨cv', hn', _, hseg⟩ := h3'
      rw [hn] at hn'
      injection hn' with hee
      subst hee
      intro c hc
      have := hcvb c (by rw [hseg]; exact List.mem_append_left _ hc)
      omega
    · have h3' := hfact3
      rw [if_neg hf] at h3'
      rw [h3'.1] at hn
      exact absurd hn (by simp)
  obtain ⟨cs, hcs1, hcs2, hcs3⟩ := payloadLoop_spec rest.length [] rest le_rfl
  have hlast8 : 8 ≤ (payloadLoop [] rest).2.length :=
    payloadLoop_snd_len rest.length [] rest le_rfl (by simpa using hrest)
  obtain ⟨front, w, hfw, hwlen⟩ :
      (∃ front w, (payloadLoop [] rest).2 = front ++ w ∧ w.length = 8) := by
    refine ⟨(payloadLoop [] rest).2.take ((payloadLoop [] rest).2.length - 8),
      (payloadLoop [] rest).2.drop ((payloadLoop [] rest).2.length - 8),
      (List.take_append_drop _ _).symm, ?_⟩
    simp only [List.length_drop]
    omega
  rcases w with _ | ⟨w0, w⟩
  · simp at hwlen
  rcases w with _ | ⟨w1, w⟩
  · simp at hwlen
  rcases w with _ | ⟨w2, w⟩
  · simp at hwlen
  rcases w with _ | ⟨w3, w⟩
  · simp at hwlen
  rcases w with _ | ⟨w4, w⟩
  · simp at hwlen
  rcases w with _ | ⟨w5, w⟩
  · simp at hwlen
  rcases w with _ | ⟨w6, w⟩
  · simp at hwlen
  rcases w with _ | ⟨w7, w⟩
  · simp at hwlen
  have hwe : w = [] := by
    simp only [List.length_cons] at hwlen
    exact List.length_eq_zero.mp (by omega)
  subst hwe
  have hlastb : ∀ b ∈ (payloadLoop [] rest).2, b < 256 := by
    intro b hb
    apply hrb
    have hmem : b ∈ cs.flatten ++ (payloadLoop [] rest).2 :=
      List.mem_append_right _ hb
    rw [hcs2] at hmem
    simpa using hmem
  have hfrontb : ∀ b ∈ front, b < 256 := by
    intro b hb
    exact hlastb b (by rw [hfw]; exact List.mem_append_left _ hb)
  have hw0 : w0 < 256 := hlastb w0 (by rw [hfw]; simp)
  have hw1 : w1 < 256 := hlastb w1 (by rw [hfw]; simp)
  have hw2 : w2 < 256 := hlastb w2 (by rw [hfw]; simp)
  have hw3 : w3 < 256 := hlastb w3 (by rw [hfw]; simp)
  have hw4 : w4 < 256 := hlastb w4 (by rw [hfw]; simp)
  have hw5 : w5 < 256 := hlastb w5 (by rw [hfw]; simp)
  have hw6 : w6 < 256 := hlastb w6 (by rw [hfw]; simp)
  have hw7 : w7 < 256 := hlastb w7 (by rw [hfw]; simp)
  have hcsb : ∀ c ∈ cs, ∀ b ∈ c, b < 256 := by
    intro c hc b hb
    apply hrb
    have := hcs3 c hc b hb
    simpa using this
  have hball : ∀ c ∈ cs ++ chunksOf 54 front, ∀ b ∈ c, b < 256 := by
    intro c hc b hb
    rcases List.mem_append.mp hc with hc | hc
    · exact hcsb c hc b hb
    · exact hfrontb b
        (chunksOf_mem 54 (by decide) front.length front le_rfl c hc b hb)
  have hslice : sliceM8M4 (payloadLoop [] rest).2 = [w0, w1, w2, w3] := by
    rw [hfw]
    exact sliceM8M4_eight front w0 w1 w2 w3 w4 w5 w6 w7
  have hlast4v : last4 (payloadLoop [] rest).2 = [w4, w5, w6, w7] := by
    rw [hfw]
    exact last4_eight front w0 w1 w2 w3 w4 w5 w6 w7
  have hbut : allButLast8 (payloadLoop [] rest).2 = front := by
    rw [hfw]
    exact allButLast8_eight front _ (by simp)
  have hwrap : wrapline (encodeB64 front) 72
      = ((chunksOf 54 front).map (fun c => encodeB64 c ++ [10])).flatten := by
    rw [wrapline_eq_flatten 72 (by decide)]
    rw [chunksOf72_encode front.length front le_rfl]
    rw [List.map_map]
    rfl
  have htext : to_text s = .ok (create_text_header h ++ s2b "----\n"
      ++ (payloadLoop [] rest).1 ++ wrapline (encodeB64 front) 72
      ++ s2b "----\n"
      ++ kvLine "crc32" (pyIntStr (Int.ofNat
          (w0 + 256 * w1 + 65536 * w2 + 16777216 * w3)))
      ++ kvLine "isize" (pyIntStr (Int.ofNat
          (w4 + 256 * w5 + 65536 * w6 + 16777216 * w7)))) := by
    simp only [to_text, hread, okBind]
    rw [if_pos hassert]
    rw [hslice, hlast4v, hbut]
    rw [show to_i32 [w0, w1, w2, w3]
        = .ok (w0 + 256 * w1 + 65536 * w2 + 16777216 * w3) from rfl, okBind]
    rw [show to_i32 [w4, w5, w6, w7]
        = .ok (w4 + 256 * w5 + 65536 * w6 + 16777216 * w7) from rfl, okBind]
  have hT : create_text_header h ++ s2b "----\n"
      ++ (payloadLoop [] rest).1 ++ wrapline (encodeB64 front) 72
      ++ s2b "----\n"
      ++ kvLine "crc32" (pyIntStr (Int.ofNat
          (w0 + 256 * w1 + 65536 * w2 + 16777216 * w3)))
      ++ kvLine "isize" (pyIntStr (Int.ofNat
          (w4 + 256 * w5 + 65536 * w6 + 16777216 * w7)))
      = (headerLines h ++ (s2b "----\n"
          :: (((cs ++ chunksOf 54 front).map (fun c => encodeB64 c ++ [10]))
            ++ (s2b "----\n"
              :: [kvLine "crc32" (pyIntStr (Int.ofNat
                    (w0 + 256 * w1 + 65536 * w2 + 16777216 * w3))),
                  kvLine "isize" (pyIntStr (Int.ofNat
                    (w4 + 256 * w5 + 65536 * w6
                      + 16777216 * w7)))])))).flatten := by
    rw [create_text_header_eq, hcs1, hwrap]
    simp [List.flatten_append, List.flatten_cons, List.map_append,
      List.append_assoc]
  have hlines : linesOf (create_text_header h ++ s2b "----\n"
      ++ (payloadLoop [] rest).1 ++ wrapline (encodeB64 front) 72
      ++ s2b "----\n"
      ++ kvLine "crc32" (pyIntStr (Int.ofNat
          (w0 + 256 * w1 + 65536 * w2 + 16777216 * w3)))
      ++ kvLine "isize" (pyIntStr (Int.ofNat
          (w4 + 256 * w5 + 65536 * w6 + 16777216 * w7))))
      = headerLines h ++ (s2b "----\n"
          :: (((cs ++ chunksOf 54 front).map (fun c => encodeB64 c ++ [10]))
            ++ (s2b "----\n"
              :: [kvLine "crc32" (pyIntStr (Int.ofNat
                    (w0 + 256 * w1 + 65536 * w2 + 16777216 * w3))),
                  kvLine "isize" (pyIntStr (Int.ofNat
                    (w4 + 256 * w5 + 65536 * w6 + 16777216 * w7)))])))
      := by
    rw [hT]
    apply linesOf_flatten
    intro l hl
    rcases List.mem_append.mp hl with hl | hl
    · exact headerLines_good h ⟨cm, hcm⟩ ⟨flg, hflg⟩ ⟨_, hmtime⟩ ⟨xfl, hxfl⟩
        ⟨osv, hos⟩ hcrcOr hnm' hcv' l hl
    · rcases List.mem_cons.mp hl with rfl | hl
      · exact ⟨s2b "----", by decide, by decide⟩
      · rcases List.mem_append.mp hl with hl | hl
        · simp only [List.mem_map] at hl
          obtain ⟨c, _, rfl⟩ := hl
          exact ⟨encodeB64 c, rfl,
            fun x hx => (encodeB64_clean c x hx).2.2.1⟩
        · rcases List.mem_cons.mp hl with rfl | hl
          · exact ⟨s2b "----", by decide, by decide⟩
          · rcases List.mem_cons.mp hl with rfl | hl
            · exact kvLine_good "crc32" _ (by decide)
                (fun c hc => ((pyIntStr_clean _).2.1 c hc).2)
            · rcases List.mem_cons.mp hl with rfl | hl
              · exact kvLine_good "isize" _ (by decide)
                  (fun c hc => ((pyIntStr_clean _).2.1 c hc).2)
              · simp at hl
  refine ⟨_, htext, ?_⟩
  simp only [to_gzip]
  rw [hlines]
  rw [read_text_header_full h _ ⟨cm, hcm⟩ ⟨flg, hflg⟩ ⟨_, hmtime⟩ ⟨xfl, hxfl⟩
    ⟨osv, hos⟩ hcrcOr hex' hnm' hcv']
  simp only [okBind]
  rw [if_pos hassert]
  rw [create_gzip_header_eq h cm flg m0 m1 m2 m3 xfl osv exseg nameseg comseg
    c16seg hcm hflg hmtime hxfl hos hcm8 hflg8 hm0b hm1b hm2b hm3b hxfl8 hosv8
    hfact1 hfact2 hfact3 hfact4 hexb hnmb hcvb hc16b]
  simp only [okBind]
  rw [readPayloadLines_blocks (cs ++ chunksOf 54 front) _ hball,
    readPayloadLines_dashes]
  simp only [okBind]
  rw [read_text_footer_pair]
  simp only [okBind]
  simp only [getKey_some, okBind]
  rw [from_i32_bytes w0 w1 w2 w3 hw0 hw1 hw2 hw3]
  simp only [okBind]
  rw [from_i32_bytes w4 w5 w6 w7 hw4 hw5 hw6 hw7]
  simp only [okBind]
  have hrest2 : cs.flatten ++ (front ++ [w0, w1, w2, w3, w4, w5, w6, w7])
      = rest := by
    rw [← hfw]
    simpa using hcs2
  rw [hsEq, List.flatten_append,
    chunksOf_flatten 54 (by decide) front.length front le_rfl, ← hrest2]
  simp [List.append_assoc]

/-- Witness for C1 on a concrete stream: FNAME set, name "a", mtime
0x04030201, a 2-byte payload and an 8-byte footer region. -/
theorem to_text_to_gzip_roundtrip_witness :
    (∀ b ∈ ([31, 139, 8, 8, 1, 2, 3, 4, 0, 255, 97, 0,
        5, 6, 1, 0, 0, 0, 2, 0, 0, 0] : List Nat), b < 256)
      ∧ read_gzip_header [31, 139, 8, 8, 1, 2, 3, 4, 0, 255, 97, 0,
          5, 6, 1, 0, 0, 0, 2, 0, 0, 0]
        = .ok (⟨some 8, some 8, some 67305985, some 0, some 255,
            none, some [97], none, none⟩, [5, 6, 1, 0, 0, 0, 2, 0, 0, 0])
      ∧ assert_header ⟨some 8, some 8, some 67305985, some 0, some 255,
          none, some [97], none, none⟩ = true
      ∧ 8 ≤ ([5, 6, 1, 0, 0, 0, 2, 0, 0, 0] : List Nat).length
      ∧ ∃ t, to_text [31, 139, 8, 8, 1, 2, 3, 4, 0, 255, 97, 0,
            5, 6, 1, 0, 0, 0, 2, 0, 0, 0] = .ok t
          ∧ to_gzip t = .ok [31, 139, 8, 8, 1, 2, 3, 4, 0, 255, 97, 0,
            5, 6, 1, 0, 0, 0, 2, 0, 0, 0] :=
  ⟨by decide, by decide, by decide, by decide,
    to_text_to_gzip_roundtrip
      [31, 139, 8, 8, 1, 2, 3, 4, 0, 255, 97, 0, 5, 6, 1, 0, 0, 0, 2, 0, 0, 0]
      ⟨some 8, some 8, some 67305985, some 0, some 255,
        none, some [97], none, none⟩
      [5, 6, 1, 0, 0, 0, 2, 0, 0, 0]
      (by decide) (by decide) (by decide) (by decide)
      (fun nm hn => by
        have hn' : some [97] = some nm := hn
        injection hn' with h2
        rw [← h2]
        decide)
      (fun cv hc => by
        have hc' : (none : Option (List Nat)) = some cv := hc
        exact Option.noConfusion hc')
      (fun e he => by
        have he' : (none : Option (List Nat)) = some e := he
        exact Option.noConfusion he')⟩

/-- C1 counterexample to the unconditional claim: a well-formed gzip
stream (accepted by read_gzip_header, passing validation, with the full
8-byte footer region) whose name contains a tab converts to text, but
converting that text back fails with ValueError — the tab inside the
value splits the name line into three fields. -/
theorem roundtrip_tab_name_counterexample :
    read_gzip_header ([31, 139, 8, 8, 0, 0, 0, 0, 0, 255]
          ++ [97, 9, 98, 0] ++ [0, 0, 0, 0, 0, 0, 0, 0])
        = .ok (⟨some 8, some 8, some 0, some 0, some 255,
            none, some [97, 9, 98], none, none⟩, [0, 0, 0, 0, 0, 0, 0, 0])
      ∧ assert_header ⟨some 8, some 8, some 0, some 0, some 255,
          none, some [97, 9, 98], none, none⟩ = true
      ∧ 8 ≤ ([0, 0, 0, 0, 0, 0, 0, 0] : List Nat).length
      ∧ (to_text ([31, 139, 8, 8, 0, 0, 0, 0, 0, 255]
          ++ [97, 9, 98, 0] ++ [0, 0, 0, 0, 0, 0, 0, 0])).bind to_gzip
        = .error .valueError := by decide

end Gziptext
